import Mathlib

/-!
# SPID-F4: distribution appliers and death distribution

A shallow embedding of `src/Distribute.cpp` and `src/DeathDistribution.cpp`.
Form pointers become values of `TESForm`, nullable pointer fields become
`Option TESForm`, the singly linked package list becomes a `List`, and the
mutation of an NPC record becomes a function returning the new record.
-/

namespace SPID

/-! ## Data model -/

/-- Form type tags (`RE::FormType`) that the modelled code inspects. -/
inductive FormType where
  | kKYWD
  | kFACT
  | kSPEL
  | kLVSP
  | kPERK
  | kOTFT
  | kARMO
  | kPACK
  | kFLST
  | kMISC
  | kNONE
deriving DecidableEq, Repr

/-- A form reference (`RE::TESForm*`): pointer identity is equality of values. -/
structure TESForm where
  formID : Nat
  formType : FormType
deriving DecidableEq, Repr

/-- The positional selection value `Index`. Its declaration is not part of the
sources at hand; every machine integer it can hold is an `Int`. -/
abbrev Index := Int

/-- The selection value of a rule: an `Index` or a `RandomCount` with its bounds. -/
inductive IndexOrCount where
  | index (i : Index)
  | count (min : Int) (max : Int)
deriving DecidableEq, Repr

/-- A faction membership entry (`RE::FACTION_RANK`). -/
structure FACTION_RANK where
  faction : TESForm
  rank : Int
deriving DecidableEq, Repr

/-- The fields of an NPC record (`RE::TESNPC`) that `Distribute` reads or writes. -/
structure TESNPC where
  keywords : List TESForm
  factions : List FACTION_RANK
  listPackages : List TESForm
  defaultPackList : Option TESForm
  spectatorOverRidePackList : Option TESForm
  observeCorpseOverRidePackList : Option TESForm
  guardWarnOverRidePackList : Option TESForm
  enterCombatOverRidePackList : Option TESForm
  defOutfit : Option TESForm
  sleepOutfit : Option TESForm
  formSkin : Option TESForm
deriving DecidableEq, Repr

/-! ## Package applier (`Distribute.cpp` lines 45-97) -/

/-- The search loop of lines 61-67: `idxIt` walks the list from `begin()`, `idx` is
its distance from `begin()`; the loop breaks at the node where `packageIdx == idx`.
The result is the offset of `idxIt`, or `none` when it reached `end()`. -/
def seekIdx (packageIdx : Index) : List TESForm → Nat → Option Nat
  | [], _ => none
  | _ :: rest, idx => if packageIdx = (idx : Int) then some idx else seekIdx packageIdx rest (idx + 1)

/-- The list operation `insert_after(idxIt, package)` for an iterator at offset `it`. -/
def insert_after (packageList : List TESForm) (it : Nat) (package : TESForm) : List TESForm :=
  packageList.take (it + 1) ++ package :: packageList.drop (it + 1)

/-- The body of the package applier lambda (lines 49-95) for the index that line 47
extracts, as a function on the NPC record. -/
def packageApplier (npc : TESNPC) (a_packageOrList : TESForm) (a_idx : Index) : TESNPC :=
  let packageIdx := a_idx
  if a_packageOrList.formType = FormType.kPACK then
    let package := a_packageOrList
    let packageIdx := if packageIdx > 0 then packageIdx - 1 else packageIdx
    let packageList := npc.listPackages
    if package ∉ packageList then
      if packageList.isEmpty ∨ packageIdx = 0 then
        { npc with listPackages := package :: packageList }
      else
        match seekIdx packageIdx packageList 0 with
        | some idxIt => { npc with listPackages := insert_after packageList idxIt package }
        | none => npc
    else
      npc
  else if a_packageOrList.formType = FormType.kFLST then
    let packageList := a_packageOrList
    if packageIdx = 0 then
      { npc with defaultPackList := some packageList }
    else if packageIdx = 1 then
      { npc with spectatorOverRidePackList := some packageList }
    else if packageIdx = 2 then
      { npc with observeCorpseOverRidePackList := some packageList }
    else if packageIdx = 3 then
      { npc with guardWarnOverRidePackList := some packageList }
    else if packageIdx = 4 then
      { npc with enterCombatOverRidePackList := some packageList }
    else
      npc
  else
    npc

/-- The package applier lambda from its entry (line 46): `std::get<Index>(a_idx)` of line 47
yields the index, and throws when the selection value holds a random count. -/
def packageApplierEntry (npc : TESNPC) (a_packageOrList : TESForm) (a_idx : IndexOrCount) :
    Option TESNPC :=
  match a_idx with
  | IndexOrCount.index packageIdx => some (packageApplier npc a_packageOrList packageIdx)
  | IndexOrCount.count _ _ => none

/-- An NPC record with no content and an empty package list. -/
def emptyNPC : TESNPC :=
  { keywords := [], factions := [], listPackages := [],
    defaultPackList := none, spectatorOverRidePackList := none,
    observeCorpseOverRidePackList := none, guardWarnOverRidePackList := none,
    enterCombatOverRidePackList := none,
    defOutfit := none, sleepOutfit := none, formSkin := none }

/-- Package form with the given id. -/
def pack (n : Nat) : TESForm := { formID := n, formType := FormType.kPACK }

/-- Form list with the given id. -/
def flst (n : Nat) : TESForm := { formID := n, formType := FormType.kFLST }

/-! ## Outfit applier (`Distribute.cpp` lines 99-108) -/

/-- Modelled from the spec: the host record operation `hasMarker(tag)` of section 6
(`RE::TESNPC::HasKeyword`, not among the sources): whether the record carries the keyword. -/
def HasKeyword (npc : TESNPC) (keyword : TESForm) : Bool :=
  decide (keyword ∈ npc.keywords)

/-- Modelled from the spec: the host record operation `addMarker(tag)` of section 6
(`RE::TESNPC::AddKeyword`, not among the sources): the keyword is appended unless the
record already carries it. -/
def AddKeyword (npc : TESNPC) (keyword : TESForm) : TESNPC :=
  if keyword ∈ npc.keywords then npc else { npc with keywords := npc.keywords ++ [keyword] }

/-- The outfit applier lambda of lines 100-107: the returned flag and the record afterwards.
`processedOutfit` is the marker keyword, a global declared outside the sources. -/
def outfitApplier (processedOutfit : TESForm) (allowOverwrites : Bool) (npc : TESNPC)
    (a_outfit : TESForm) : Bool × TESNPC :=
  if npc.defOutfit ≠ some a_outfit ∧ (allowOverwrites = true ∨ ¬ HasKeyword npc processedOutfit = true) then
    (true, { AddKeyword npc processedOutfit with defOutfit := some a_outfit })
  else
    (false, npc)

/-! ## Rule data and rule repositories -/

/-- Record types of configuration entries (`RECORD::TYPE`). -/
inductive RECORD.TYPE where
  | kForm
  | kSpell
  | kPerk
  | kItem
  | kLevSpell
  | kPackage
  | kOutfit
  | kKeyword
  | kFaction
  | kSleepOutfit
  | kSkin
  | kTotal
deriving DecidableEq, Repr

/-- A resolved rule of a category list: the form, its selection value, and opaque
identifiers of its filters and of the file it came from. -/
structure FormData where
  form : TESForm
  idxOrCount : IndexOrCount
  filters : Nat
  path : Nat
deriving DecidableEq, Repr

/-- A list of resolved rules. -/
abbrev DataVec := List FormData

/-- Modelled from the spec: the class `Distributables` (LookupForms.h, not among the
sources), the Rule Repository of section 2 for one category: its rule list, and the
sub-list of the rules that carry level filters. -/
structure Distributables where
  forms : DataVec
  formsWithLevels : DataVec
deriving DecidableEq, Repr

/-- Modelled from the spec: `Distributables::GetForms` (LookupForms.h, not among the
sources): the category rule list, narrowed by the leveled-only gate of section 3 when
the flag is set. Calls without an argument pass `false`. -/
def Distributables.GetForms (d : Distributables) (a_onlyLevelEntries : Bool) : DataVec :=
  if a_onlyLevelEntries then d.formsWithLevels else d.forms

/-- The ten category repositories of one rule namespace: the globals of namespace `Forms`
(regular rules) and, separately, the members of `DeathDistribution::Manager` (death rules). -/
structure DistributableSet where
  spells : Distributables
  perks : Distributables
  items : Distributables
  levSpells : Distributables
  packages : Distributables
  outfits : Distributables
  keywords : Distributables
  factions : Distributables
  sleepOutfits : Distributables
  skins : Distributables
deriving DecidableEq, Repr

/-- The working set `Forms::DistributionSet`, in the field order of its initialisers
(`Distribute.cpp` lines 146-157, `DeathDistribution.cpp` lines 206-217). -/
structure DistributionSet where
  spells : DataVec
  perks : DataVec
  items : DataVec
  levSpells : DataVec
  packages : DataVec
  outfits : DataVec
  keywords : DataVec
  factions : DataVec
  sleepOutfits : DataVec
  skins : DataVec
deriving DecidableEq, Repr

/-- The content categories of section 3 of the specification. -/
inductive Category where
  | Keyword
  | Faction
  | Perk
  | Spell
  | LeveledSpell
  | Package
  | Outfit
  | SleepOutfit
  | Item
  | Skin
deriving DecidableEq, Repr

/-- The rule list that a namespace holds for a category. -/
def DistributableSet.ruleList (s : DistributableSet) : Category → DataVec
  | Category.Keyword => s.keywords.GetForms false
  | Category.Faction => s.factions.GetForms false
  | Category.Perk => s.perks.GetForms false
  | Category.Spell => s.spells.GetForms false
  | Category.LeveledSpell => s.levSpells.GetForms false
  | Category.Package => s.packages.GetForms false
  | Category.Outfit => s.outfits.GetForms false
  | Category.SleepOutfit => s.sleepOutfits.GetForms false
  | Category.Item => s.items.GetForms false
  | Category.Skin => s.skins.GetForms false

/-- Both rule namespaces of the process: the globals of `Forms` and the death manager. -/
structure Repositories where
  regular : DistributableSet
  death : DistributableSet
deriving DecidableEq, Repr

/-- The function `Manager::IsEmpty` (`DeathDistribution.cpp` lines 141-153); the names
it reads are the members of the death manager. -/
def Manager.IsEmpty (r : Repositories) : Bool :=
  (r.death.spells.GetForms false).isEmpty &&
  (r.death.perks.GetForms false).isEmpty &&
  (r.death.items.GetForms false).isEmpty &&
  (r.death.levSpells.GetForms false).isEmpty &&
  (r.death.packages.GetForms false).isEmpty &&
  (r.death.outfits.GetForms false).isEmpty &&
  (r.death.keywords.GetForms false).isEmpty &&
  (r.death.factions.GetForms false).isEmpty &&
  (r.death.sleepOutfits.GetForms false).isEmpty &&
  (r.death.skins.GetForms false).isEmpty

/-- A category repository holding no rule. -/
def Distributables.noRules : Distributables := { forms := [], formsWithLevels := [] }

/-- A namespace holding no rule in any category. -/
def DistributableSet.noRules : DistributableSet :=
  { spells := Distributables.noRules, perks := Distributables.noRules, items := Distributables.noRules,
    levSpells := Distributables.noRules, packages := Distributables.noRules,
    outfits := Distributables.noRules, keywords := Distributables.noRules,
    factions := Distributables.noRules, sleepOutfits := Distributables.noRules,
    skins := Distributables.noRules }

/-! ## Orchestration (`Distribute.cpp` lines 8-170, `DeathDistribution.cpp` lines 191-231) -/

/-- The accumulator `DistributedForms`: the forms reported as distributed in one pass. -/
abbrev DistributedForms := List TESForm

/-- The rule namespace of a linked-distribution lookup (`LinkedDistribution::Scope`). -/
inductive Scope where
  | kRegular
  | kDeath
deriving DecidableEq, Repr

/-- The argument `PCLevelMult::Input`: identifiers of the actor and of its NPC record,
and the leveled-only flag. -/
structure Input where
  actor : Nat
  npc : Nat
  onlyPlayerLevelEntries : Bool
deriving DecidableEq, Repr

/-- The parts of the program that the orchestration calls and that are not among the
sources: the effect of the ten `for_each_form` passes on a record together with the forms
they report, the table of linked distribution sets, and the level-cap test. -/
structure Host where
  for_each_form : TESNPC → Input → DistributionSet → Bool → TESNPC × DistributedForms
  linkedSet : Scope → TESForm → Option DistributionSet
  HasHitLevelCap : Input → Bool

/-- What an execution does, in order: a call of the five-argument `Distribute` (with its
rule set, its overwrite flag, and whether its accumulator pointer is non-null), or a
linked-distribution lookup (with its namespace and the forms used as keys). -/
inductive TraceEvent where
  | distribute (forms : DistributionSet) (allowOverwrites : Bool) (accumulates : Bool)
  | linkedLookup (scope : Scope) (targetForms : DistributedForms)
deriving DecidableEq, Repr

/-- The state threaded through a distribution on one NPC: its record and the trace so far. -/
structure DistState where
  npc : TESNPC
  trace : List TraceEvent
deriving DecidableEq, Repr

/-- The five-argument `Distribute` (lines 8-138): the ten passes run on the record; the
forms they report are added to the accumulator when the pointer is non-null. -/
def Distribute5 (h : Host) (st : DistState) (input : Input) (forms : DistributionSet)
    (allowOverwrites : Bool) (accumulatedForms : Option DistributedForms) :
    DistState × Option DistributedForms :=
  let r := h.for_each_form st.npc input forms allowOverwrites
  ({ npc := r.1,
     trace := st.trace ++ [TraceEvent.distribute forms allowOverwrites accumulatedForms.isSome] },
   accumulatedForms.map (fun acc => acc ++ r.2))

/-- Modelled from the spec: `LinkedDistribution::Manager::ForEachLinkedDistributionSet`
(LinkedDistribution.h, not among the sources). Section 4.5: for each reference in the
applied content set, the secondary set registered against that reference under the given
namespace is looked up and, if found, handed to the callback. -/
def ForEachLinkedDistributionSet (h : Host) (scope : Scope) (targetForms : DistributedForms)
    (performDistribution : DistState → DistributionSet → DistState) (st : DistState) : DistState :=
  targetForms.foldl
    (fun s form =>
      match h.linkedSet scope form with
      | some set => performDistribution s set
      | none => s)
    { st with trace := st.trace ++ [TraceEvent.linkedLookup scope targetForms] }

/-- The rule set handed to the first pass: `GetForms` of each category, in initialiser order. -/
def entriesOf (forms : DistributableSet) (a_onlyLevelEntries : Bool) : DistributionSet :=
  { spells := forms.spells.GetForms a_onlyLevelEntries,
    perks := forms.perks.GetForms a_onlyLevelEntries,
    items := forms.items.GetForms a_onlyLevelEntries,
    levSpells := forms.levSpells.GetForms a_onlyLevelEntries,
    packages := forms.packages.GetForms a_onlyLevelEntries,
    outfits := forms.outfits.GetForms a_onlyLevelEntries,
    keywords := forms.keywords.GetForms a_onlyLevelEntries,
    factions := forms.factions.GetForms a_onlyLevelEntries,
    sleepOutfits := forms.sleepOutfits.GetForms a_onlyLevelEntries,
    skins := forms.skins.GetForms a_onlyLevelEntries }

/-- The two-argument `Distribute(npcData, input)` of lines 140-170; `forms` are the globals
of namespace `Forms`. -/
def Distribute (h : Host) (forms : DistributableSet) (st : DistState) (input : Input) : DistState :=
  if input.onlyPlayerLevelEntries && h.HasHitLevelCap input then
    st
  else
    let entries := entriesOf forms input.onlyPlayerLevelEntries
    let r := Distribute5 h st input entries false (some [])
    let distributedForms := r.2.getD []
    if !distributedForms.isEmpty then
      ForEachLinkedDistributionSet h Scope.kRegular distributedForms
        (fun s set => (Distribute5 h s input set true none).1) r.1
    else
      r.1

/-- An actor: its identifier and the NPC record `GetNPC()` yields, if any. -/
structure Actor where
  id : Nat
  GetNPC : Option Nat
deriving DecidableEq, Repr

/-- An object reference: whether it is the player, and the actor `As<RE::Actor>()` yields. -/
structure TESObjectREFR where
  IsPlayerRef : Bool
  asActor : Option Actor
deriving DecidableEq, Repr

/-- The death notification `RE::TESDeathEvent`. -/
structure TESDeathEvent where
  actorDying : Option TESObjectREFR
  dead : Bool
deriving DecidableEq, Repr

/-- The control value an event sink returns. -/
inductive BSEventNotifyControl where
  | kContinue
  | kStop
deriving DecidableEq, Repr

/-- The NPC records of the game, by identifier, and the trace of what has been executed. -/
structure World where
  records : Nat → TESNPC
  trace : List TraceEvent

/-- The function `Manager::ProcessEvent` of lines 191-231; `m` are the members of the manager. -/
def Manager.ProcessEvent (h : Host) (m : DistributableSet) (w : World) (a_event : TESDeathEvent) :
    BSEventNotifyControl × World :=
  let is_NPC : Option TESObjectREFR → Bool := fun a_ref =>
    match a_ref with
    | some ref => !ref.IsPlayerRef
    | none => false
  if a_event.dead && is_NPC a_event.actorDying then
    let actor := a_event.actorDying.bind (fun ref => ref.asActor)
    let npc := actor.bind (fun a => a.GetNPC)
    match actor, npc with
    | some actor, some npc =>
      let input : Input := { actor := actor.id, npc := npc, onlyPlayerLevelEntries := false }
      let entries := entriesOf m false
      let r := Distribute5 h { npc := w.records npc, trace := w.trace } input entries false (some [])
      let distributedForms := r.2.getD []
      let st :=
        if !distributedForms.isEmpty then
          ForEachLinkedDistributionSet h Scope.kDeath distributedForms
            (fun s set => (Distribute5 h s input set true none).1) r.1
        else
          r.1
      (BSEventNotifyControl.kContinue,
        { records := Function.update w.records npc st.npc, trace := st.trace })
    | _, _ => (BSEventNotifyControl.kContinue, w)
  else
    (BSEventNotifyControl.kContinue, w)

/-- Whether a trace event is a linked-distribution lookup. -/
def TraceEvent.isLookup : TraceEvent → Bool
  | TraceEvent.linkedLookup _ _ => true
  | TraceEvent.distribute _ _ _ => false

/-- Whether a trace event is a call of `Distribute` with a non-null accumulator. -/
def TraceEvent.accumulating : TraceEvent → Bool
  | TraceEvent.distribute _ _ accumulates => accumulates
  | TraceEvent.linkedLookup _ _ => false

/-! ## Death configuration entries (`DeathDistribution.cpp` lines 35-99, 181-189) -/

/-- A parsed configuration entry (`Distribution::INI::Data`): its record type, and the
raw form, selection value and file it names. -/
structure INI.Data where
  type : RECORD.TYPE
  rawForm : Nat
  idxOrCount : IndexOrCount
  path : Nat
deriving DecidableEq, Repr

/-- The associative container `Map<RECORD::TYPE, DataVec>` of `INI::deathConfigs`: its
key-value entries, each key at most once. -/
abbrev Map := List (RECORD.TYPE × List INI.Data)

/-- The test `empty()` of the map: it has no key. -/
def Map.empty (m : Map) : Bool := m.isEmpty

/-- The state of the map after `m[key]`: a key that is absent is inserted with an empty
vector, as the subscript operator of an associative container does. -/
def Map.subscript (m : Map) (key : RECORD.TYPE) : Map :=
  if m.any (fun e => e.1 == key) then m else m ++ [(key, [])]

/-- The state of the map after `m[key].emplace_back(data)`. -/
def Map.emplace_back (m : Map) (key : RECORD.TYPE) (data : INI.Data) : Map :=
  (m.subscript key).map (fun e => if e.1 = key then (e.1, e.2 ++ [data]) else e)

/-- The number of entries stored in the map, over all keys. -/
def Map.storedEntries (m : Map) : Nat := (m.map (fun e => e.2.length)).sum

/-- What `Parse<DeathData, ...>(key, value)` does (Parser.h, not among the sources): a
component throws, or no data results, or an entry results. -/
inductive ParseOutcome where
  | threw
  | noData
  | data (d : INI.Data)
deriving DecidableEq, Repr

/-- The function `INI::TryParse` of lines 40-66: the returned flag and `deathConfigs` afterwards. -/
def INI.TryParse (Parse : String → String → ParseOutcome) (deathConfigs : Map)
    (key value : String) (path : Nat) : Bool × Map :=
  match Parse key value with
  | ParseOutcome.data optData =>
    let data := { optData with path := path }
    (true, deathConfigs.emplace_back data.type data)
  | ParseOutcome.noData => (false, deathConfigs)
  | ParseOutcome.threw => (true, deathConfigs)

/-- What `Manager::LookupForms` (lines 73-139) does to `INI::deathConfigs`: the subscript
with the type of each distributable other than the spells one (line 82; `types` lists them
in the order `ForEachDistributable` visits them), then with `kSpell` (line 87), then with
`kForm` (line 99). -/
def Manager.LookupForms_deathConfigs (types : List RECORD.TYPE) (deathConfigs : Map) : Map :=
  ((types.foldl (fun m t => m.subscript t) deathConfigs).subscript RECORD.TYPE.kSpell).subscript
    RECORD.TYPE.kForm

/-- The function `Manager::Register` of lines 181-189: whether the manager is registered as
a sink of the death event afterwards. -/
def Manager.Register (deathConfigs : Map) : Bool :=
  if deathConfigs.empty then false else true

/-- The states of `INI::deathConfigs` that calls of `TryParse` and `LookupForms` reach from
the empty map. -/
inductive ReachableConfigs : Map → Prop where
  | init : ReachableConfigs []
  | tryParse (Parse : String → String → ParseOutcome) (key value : String) (path : Nat) (m : Map) :
      ReachableConfigs m → ReachableConfigs (INI.TryParse Parse m key value path).2
  | lookupForms (types : List RECORD.TYPE) (m : Map) :
      ReachableConfigs m → ReachableConfigs (Manager.LookupForms_deathConfigs types m)

/-- The types of the nine distributables other than spells. -/
def distributableTypes : List RECORD.TYPE :=
  [RECORD.TYPE.kKeyword, RECORD.TYPE.kFaction, RECORD.TYPE.kPerk, RECORD.TYPE.kItem,
   RECORD.TYPE.kLevSpell, RECORD.TYPE.kPackage, RECORD.TYPE.kOutfit,
   RECORD.TYPE.kSleepOutfit, RECORD.TYPE.kSkin]

/-! ## Death key parsing (`DeathDistribution.cpp` lines 14-33) -/

/-- The exceptions a parser component throws (`Distribution::INI::Exception`). -/
inductive ParseException where
  | UnsupportedFormType (rawType : String)
deriving DecidableEq, Repr

/-- The key text `Death` that the key parser tests for. -/
def deathKey : String := "Death"

/-- The functor `INI::DeathKeyComponentParser` of lines 14-33, on keys as sequences of
characters: the exception thrown, or the returned flag and the data afterwards. `GetType`
is the function `RECORD::GetType`, not among the sources. -/
def INI.DeathKeyComponentParser (GetType : String → RECORD.TYPE) (key : String) (data : INI.Data) :
    Except ParseException (Bool × INI.Data) :=
  if deathKey.data.isPrefixOf key.data = false then
    Except.ok (false, data)
  else
    let rawType := String.mk (key.data.drop 5)
    let type := GetType rawType
    if type = RECORD.TYPE.kTotal then
      Except.error (ParseException.UnsupportedFormType rawType)
    else
      Except.ok (true, { data with type := type })

/-- The vector the map holds under a key, empty when the key is absent. -/
def Map.vecAt (m : Map) (key : RECORD.TYPE) : List INI.Data :=
  match m.find? (fun e => e.1 == key) with
  | some e => e.2
  | none => []

/-! ## Faction, sleep outfit and skin appliers (`Distribute.cpp` lines 18-25, 110-118, 129-137) -/

/-- The faction applier lambda of lines 19-24: each faction of the vector handed to it is
placed at the back of the faction list with rank 1 (`reserve` changes no content). -/
def factionApplier (npc : TESNPC) (a_factions : List TESForm) : TESNPC :=
  a_factions.foldl
    (fun n faction => { n with factions := n.factions ++ [{ faction := faction, rank := 1 }] }) npc

/-- Modelled from the spec: `for_each_form<RE::TESFaction>` (Distribute.h, not among the
sources), which builds the vector handed to the faction applier. Sections 4.3 and 4.4: the
rules of the category are taken in order, and the faction of a rule is collected when the
rule passes the filters and the selection (`passes`) and the faction is not already
present, on the record or among the factions collected before it. -/
def collectFactions (passes : FormData → Bool) (npc : TESNPC) (forms : DataVec) : List TESForm :=
  forms.foldl
    (fun collected formData =>
      if passes formData = true ∧
          formData.form ∉ npc.factions.map (fun entry => entry.faction) ∧
          formData.form ∉ collected then
        collected ++ [formData.form]
      else
        collected)
    []

/-- The faction pass of lines 18-25: the vector that `for_each_form` collects from the
faction rules is handed to the faction applier lambda. -/
def distributeFactions (passes : FormData → Bool) (npc : TESNPC) (forms : DataVec) : TESNPC :=
  factionApplier npc (collectFactions passes npc forms)

/-- The sleep outfit applier lambda of lines 111-117: the returned flag and the record
afterwards. `allowOverwrites` is the variable of the enclosing function, which the lambda
captures and does not read. -/
def sleepOutfitApplier (_allowOverwrites : Bool) (npc : TESNPC) (a_outfit : TESForm) :
    Bool × TESNPC :=
  if npc.sleepOutfit ≠ some a_outfit then
    (true, { npc with sleepOutfit := some a_outfit })
  else
    (false, npc)

/-- The skin applier lambda of lines 130-136: the returned flag and the record afterwards.
`allowOverwrites` is the variable of the enclosing function, which the lambda captures and
does not read. -/
def skinApplier (_allowOverwrites : Bool) (npc : TESNPC) (a_skin : TESForm) : Bool × TESNPC :=
  if npc.formSkin ≠ some a_skin then
    (true, { npc with formSkin := some a_skin })
  else
    (false, npc)

/-- The package insertion as claim C15 words it: L itself if P is already in L; otherwise P
prepended if L is empty or N is at most 1; otherwise P inserted at 0-based position N if N
is at most the length of L; otherwise L unchanged. -/
def packageInsertionReference (L : List TESForm) (P : TESForm) (N : Int) : List TESForm :=
  if P ∈ L then L
  else if L = [] ∨ N ≤ 1 then P :: L
  else if N ≤ (L.length : Int) then List.insertIdx N.toNat P L
  else L

/-! ## Generic form classification (`DeathDistribution.cpp` lines 86-138) -/

/-- Whether a form type is one of the bound object types (the classes derived from
`RE::TESBoundObject`, among the tags of `FormType`). -/
def FormType.IsBoundObject : FormType → Bool
  | FormType.kSPEL => true
  | FormType.kLVSP => true
  | FormType.kARMO => true
  | FormType.kMISC => true
  | _ => false

/-- The casts `form->As<T>()` of the host library, not among the sources: the cast to a
form class yields the form when its type tag is that of the class, and null otherwise. -/
def TESForm.As (form : TESForm) (target : FormType) : Option TESForm :=
  if form.formType = target then some form else none

/-- The cast `form->As<RE::TESBoundObject>()`, to the base class of the bound object types. -/
def TESForm.AsBoundObject (form : TESForm) : Option TESForm :=
  if form.formType.IsBoundObject then some form else none

/-- The warnings the classification logs (lines 126 and 134). -/
inductive Diagnostic where
  | randomCountAsIndex (path : Nat) (min : Int)
  | unsupportedFormType (path : Nat) (type : FormType)
deriving DecidableEq, Repr

/-- The parts of the lookup that are not among the sources (LookupForms.h):
`LookupGenericForm`, as the arguments it calls the callback with (validity, form, selection
value, filters, path), or `none` when it does not call it; and `Distributables::EmplaceForm`,
as its effect on a category repository. -/
structure LookupHost where
  LookupGenericForm : INI.Data → Option (Bool × TESForm × IndexOrCount × Nat × Nat)
  EmplaceForm : Distributables → Bool → FormData → Distributables

/-- The callback of lines 90-96 for an entry of `deathConfigs[kSpell]`: the manager
afterwards. -/
def spellCallback (e : LookupHost) (m : DistributableSet) (isValid : Bool) (form : TESForm)
    (idxOrCount : IndexOrCount) (filters path : Nat) : DistributableSet :=
  if (form.As FormType.kSPEL).isSome then
    { m with
        spells := e.EmplaceForm m.spells isValid (FormData.mk form idxOrCount filters path) }
  else if (form.As FormType.kLVSP).isSome then
    { m with
        levSpells := e.EmplaceForm m.levSpells isValid (FormData.mk form idxOrCount filters path) }
  else
    m

/-- The callback of lines 103-137 for an entry of `deathConfigs[kForm]`: the manager
afterwards and the warnings logged. -/
def genericFormCallback (e : LookupHost) (m : DistributableSet) (isValid : Bool) (form : TESForm)
    (idxOrCount : IndexOrCount) (filters path : Nat) : DistributableSet × List Diagnostic :=
  if (form.As FormType.kKYWD).isSome then
    ({ m with
        keywords := e.EmplaceForm m.keywords isValid (FormData.mk form idxOrCount filters path) }, [])
  else if (form.As FormType.kSPEL).isSome then
    ({ m with
        spells := e.EmplaceForm m.spells isValid (FormData.mk form idxOrCount filters path) }, [])
  else if (form.As FormType.kLVSP).isSome then
    ({ m with
        levSpells := e.EmplaceForm m.levSpells isValid (FormData.mk form idxOrCount filters path) }, [])
  else if (form.As FormType.kPERK).isSome then
    ({ m with
        perks := e.EmplaceForm m.perks isValid (FormData.mk form idxOrCount filters path) }, [])
  else if form.AsBoundObject.isSome then
    ({ m with
        items := e.EmplaceForm m.items isValid (FormData.mk form idxOrCount filters path) }, [])
  else if (form.As FormType.kOTFT).isSome then
    ({ m with
        outfits := e.EmplaceForm m.outfits isValid (FormData.mk form idxOrCount filters path) }, [])
  else if (form.As FormType.kFACT).isSome then
    ({ m with
        factions := e.EmplaceForm m.factions isValid (FormData.mk form idxOrCount filters path) }, [])
  else
    let type := form.formType
    if type = FormType.kPACK ∨ type = FormType.kFLST then
      match idxOrCount with
      | IndexOrCount.count min max =>
        let packageIndex : Index := min
        ({ m with
            packages := e.EmplaceForm m.packages isValid
              (FormData.mk form (IndexOrCount.index packageIndex) filters path) },
          if ¬ (min = max) then [Diagnostic.randomCountAsIndex path min] else [])
      | IndexOrCount.index i =>
        let packageIndex : Index := i
        ({ m with
            packages := e.EmplaceForm m.packages isValid
              (FormData.mk form (IndexOrCount.index packageIndex) filters path) }, [])
    else
      (m, [Diagnostic.unsupportedFormType path type])

/-- The loop of lines 101-138 over `deathConfigs[kForm]`: the manager afterwards and the
warnings logged, in order. -/
def Manager.LookupForms_genericForms (e : LookupHost) (genericForms : List INI.Data)
    (m : DistributableSet) : DistributableSet × List Diagnostic :=
  genericForms.foldl
    (fun acc rawForm =>
      match e.LookupGenericForm rawForm with
      | some (isValid, form, idxOrCount, filters, path) =>
        ((genericFormCallback e acc.1 isValid form idxOrCount filters path).1,
          acc.2 ++ (genericFormCallback e acc.1 isValid form idxOrCount filters path).2)
      | none => acc)
    (m, [])

/-- The category repository of a namespace, by category. -/
def DistributableSet.get (s : DistributableSet) : Category → Distributables
  | Category.Keyword => s.keywords
  | Category.Faction => s.factions
  | Category.Perk => s.perks
  | Category.Spell => s.spells
  | Category.LeveledSpell => s.levSpells
  | Category.Package => s.packages
  | Category.Outfit => s.outfits
  | Category.SleepOutfit => s.sleepOutfits
  | Category.Item => s.items
  | Category.Skin => s.skins

/-- The type tests of claim C14 in their order, each with the category it selects:
keyword, spell, leveled spell, perk, item (bound object), outfit, faction, package or
package list. -/
def inferenceOrder : List ((TESForm → Bool) × Category) :=
  [(fun form => (form.As FormType.kKYWD).isSome, Category.Keyword),
   (fun form => (form.As FormType.kSPEL).isSome, Category.Spell),
   (fun form => (form.As FormType.kLVSP).isSome, Category.LeveledSpell),
   (fun form => (form.As FormType.kPERK).isSome, Category.Perk),
   (fun form => form.AsBoundObject.isSome, Category.Item),
   (fun form => (form.As FormType.kOTFT).isSome, Category.Outfit),
   (fun form => (form.As FormType.kFACT).isSome, Category.Faction),
   (fun form => decide (form.formType = FormType.kPACK ∨ form.formType = FormType.kFLST),
     Category.Package)]

/-- The category claim C14 assigns to a generic form: that of the first test of
`inferenceOrder` that succeeds, or none. -/
def inferredCategory (form : TESForm) : Option Category :=
  (inferenceOrder.find? (fun test => test.1 form)).map (fun test => test.2)

/-- The selection value stored with a generic form of a category: for a package or package
list the index of lines 122-131 (the minimum of a random count, or the given index), and
the selection value as given for the other categories. -/
def storedSelection (c : Category) (idxOrCount : IndexOrCount) : IndexOrCount :=
  match c, idxOrCount with
  | Category.Package, IndexOrCount.count min _ => IndexOrCount.index min
  | _, v => v

/-! ## Sample inputs -/

/-- A rule set with one outfit rule, for outfit 3. -/
def linkedOutfits : DistributionSet :=
  { spells := [], perks := [], items := [], levSpells := [], packages := [],
    outfits := [{ form := { formID := 3, formType := FormType.kOTFT },
                  idxOrCount := IndexOrCount.count 1 1, filters := 0, path := 0 }],
    keywords := [], factions := [], sleepOutfits := [], skins := [] }

/-- A host whose passes report the forms of the keyword and outfit rules and leave the
record as it is, with a set linked to form 7 in both namespaces, and no level cap. -/
def sampleHost : Host :=
  { for_each_form := fun npc _ forms _ =>
      (npc, forms.keywords.map (fun d => d.form) ++ forms.outfits.map (fun d => d.form)),
    linkedSet := fun _ form => if form.formID = 7 then some linkedOutfits else none,
    HasHitLevelCap := fun _ => false }

/-- A rule for keyword 7. -/
def sampleRule : FormData :=
  { form := { formID := 7, formType := FormType.kKYWD }, idxOrCount := IndexOrCount.count 1 1,
    filters := 0, path := 0 }

/-- A death namespace with one keyword rule. -/
def sampleManager : DistributableSet :=
  { DistributableSet.noRules with keywords := { forms := [sampleRule], formsWithLevels := [] } }

/-- Repositories with one regular spell rule and no death rule. -/
def regularOnly : Repositories :=
  { regular := { DistributableSet.noRules with spells := { forms := [sampleRule], formsWithLevels := [] } },
    death := DistributableSet.noRules }

/-- A world in which every NPC record is the empty record and nothing has been executed. -/
def sampleWorld : World := { records := fun _ => emptyNPC, trace := [] }

/-- A death notification for the player: a dead reference that is the player. -/
def playerDeath : TESDeathEvent :=
  { actorDying := some { IsPlayerRef := true, asActor := some { id := 20, GetNPC := some 7 } },
    dead := true }

/-- Faction form with the given id. -/
def fact (n : Nat) : TESForm := { formID := n, formType := FormType.kFACT }

/-- Outfit form with the given id. -/
def otft (n : Nat) : TESForm := { formID := n, formType := FormType.kOTFT }

/-- A lookup host that resolves every entry to package 4 with the entry's selection value,
and whose `EmplaceForm` places a valid rule at the back of the rule list. -/
def sampleLookupHost : LookupHost :=
  { LookupGenericForm := fun rawForm => some (true, pack 4, rawForm.idxOrCount, 0, rawForm.path),
    EmplaceForm := fun d isValid rule =>
      if isValid then { d with forms := d.forms ++ [rule] } else d }

/-- A lookup host that resolves entry 11 to keyword 11 and any other entry to a form of
no supported type, and whose `EmplaceForm` places a valid rule at the back of the rule list. -/
def typedLookupHost : LookupHost :=
  { LookupGenericForm := fun rawForm =>
      some (true,
        { formID := rawForm.rawForm,
          formType := if rawForm.rawForm = 11 then FormType.kKYWD else FormType.kNONE },
        rawForm.idxOrCount, 0, rawForm.path),
    EmplaceForm := fun d isValid rule =>
      if isValid then { d with forms := d.forms ++ [rule] } else d }

/-- A table of record type names for `RECORD::GetType`: the type a name stands for, and
`kTotal` for any other text. -/
def sampleGetType (rawType : String) : RECORD.TYPE :=
  if rawType = "Spell" then RECORD.TYPE.kSpell
  else if rawType = "Package" then RECORD.TYPE.kPackage
  else if rawType = "Form" then RECORD.TYPE.kForm
  else RECORD.TYPE.kTotal

/-- A parsed entry, of the spell type. -/
def sampleData : INI.Data :=
  { type := RECORD.TYPE.kSpell, rawForm := 11, idxOrCount := IndexOrCount.count 1 1, path := 0 }

/-! ## Theorems -/

/-! ### Package applier -/

/-- A package that is already in the list: the applier returns the record as it was. -/
theorem packageApplier_of_mem (npc : TESNPC) (P : TESForm) (i : Index)
    (hP : P.formType = FormType.kPACK) (hmem : P ∈ npc.listPackages) :
    packageApplier npc P i = npc := by
  simp [packageApplier, hP, hmem]

/-- A package that is not in the list, with index 0: it is pushed to the front. -/
theorem packageApplier_zero_of_not_mem (npc : TESNPC) (P : TESForm)
    (hP : P.formType = FormType.kPACK) (hmem : P ∉ npc.listPackages) :
    packageApplier npc P 0 = { npc with listPackages := P :: npc.listPackages } := by
  simp [packageApplier, hP, hmem]

/-- The package list after the applier is the old list, or the old list with the form
pushed to the front, or the old list with the form inserted after some node. -/
theorem packageApplier_listPackages_cases (npc : TESNPC) (P : TESForm) (i : Index) :
    (packageApplier npc P i).listPackages = npc.listPackages ∨
    (P ∉ npc.listPackages ∧
      ((packageApplier npc P i).listPackages = P :: npc.listPackages ∨
        ∃ it, (packageApplier npc P i).listPackages = insert_after npc.listPackages it P)) := by
  by_cases hP : P.formType = FormType.kPACK
  · by_cases hmem : P ∈ npc.listPackages
    · left
      rw [packageApplier_of_mem npc P i hP hmem]
    · by_cases hne : (packageApplier npc P i).listPackages = npc.listPackages
      · left; exact hne
      right
      refine ⟨hmem, ?_⟩
      unfold packageApplier at hne ⊢
      simp only [hP, hmem, not_false_eq_true, if_true] at hne ⊢
      revert hne
      generalize (if i > 0 then i - 1 else i) = j
      intro hne
      by_cases hfront : npc.listPackages.isEmpty = true ∨ j = 0
      · left
        rw [if_pos hfront]
      · rw [if_neg hfront] at hne ⊢
        cases hseek : seekIdx j npc.listPackages 0 with
        | none => rw [hseek] at hne; exact absurd rfl hne
        | some it => right; exact ⟨it, rfl⟩
  · left
    unfold packageApplier
    simp only [hP, if_false]
    repeat' split
    all_goals rfl

/-- The number of occurrences of a form grows by one when it is inserted after a node. -/
theorem count_insert_after (L : List TESForm) (it : Nat) (P : TESForm) :
    (insert_after L it P).count P = L.count P + 1 := by
  unfold insert_after
  rw [List.count_append, List.count_cons_self]
  have h := congrArg (List.count P) (List.take_append_drop (it + 1) L)
  rw [List.count_append] at h
  omega

/-- One application of the package applier keeps a form that occurs at most once in the
package list occurring at most once. -/
theorem packageApplier_count_le_one (npc : TESNPC) (P : TESForm) (i : Index)
    (h : npc.listPackages.count P ≤ 1) :
    (packageApplier npc P i).listPackages.count P ≤ 1 := by
  rcases packageApplier_listPackages_cases npc P i with hsame | ⟨hmem, hfront | ⟨it, hins⟩⟩
  · rw [hsame]; exact h
  · rw [hfront, List.count_cons_self, List.count_eq_zero_of_not_mem hmem]
  · rw [hins, count_insert_after, List.count_eq_zero_of_not_mem hmem]

/-- A form that is in the package list: the applier leaves the package list as it was,
whatever the type of the form and the index. -/
theorem packageApplier_listPackages_of_mem (npc : TESNPC) (P : TESForm) (i : Index)
    (hmem : P ∈ npc.listPackages) :
    (packageApplier npc P i).listPackages = npc.listPackages := by
  rcases packageApplier_listPackages_cases npc P i with hsame | ⟨hnot, _⟩
  · exact hsame
  · exact absurd hmem hnot

/-- Claim C1, as the code has it: from an empty package list, applying package A with
index 0 and then package B with index 2 leaves the list equal to `[A]`; B is not inserted,
because the one-element list has no node at distance 1 to insert after. -/
theorem C1_second_package_not_inserted (npc : TESNPC) (A B : TESForm)
    (hA : A.formType = FormType.kPACK) (hB : B.formType = FormType.kPACK)
    (hempty : npc.listPackages = []) :
    (packageApplier (packageApplier npc A 0) B 2).listPackages = [A] := by
  have h1 : packageApplier npc A 0 = { npc with listPackages := [A] } := by
    rw [packageApplier_zero_of_not_mem npc A hA (by simp [hempty]), hempty]
  rw [h1]
  by_cases hBA : B = A
  · subst hBA
    rw [packageApplier_of_mem _ B 2 hB (by simp)]
  · simp [packageApplier, hB, hBA, seekIdx]

/-- Claim C1 at packages 1 and 2 on the empty record. -/
theorem C1_second_package_not_inserted_witness :
    (packageApplier (packageApplier emptyNPC (pack 1) 0) (pack 2) 2).listPackages = [pack 1] :=
  C1_second_package_not_inserted emptyNPC (pack 1) (pack 2) rfl rfl rfl

/-- Claim C1 as stated fails: from the empty list, package 1 with index 0 and then
package 2 with index 2 do not leave the list `[package 1, package 2]`. -/
theorem C1_counterexample :
    (packageApplier (packageApplier emptyNPC (pack 1) 0) (pack 2) 2).listPackages
      ≠ [pack 1, pack 2] := by
  decide

/-- Claim C2, as the code has it: for a package P and index 0, if P is not yet in the
package list then afterwards P is the first element and the old elements follow in their
order; if P is already in the list, the record is unchanged. -/
theorem C2_index_zero_front (npc : TESNPC) (P : TESForm) (hP : P.formType = FormType.kPACK) :
    (P ∉ npc.listPackages →
      (packageApplier npc P 0).listPackages = P :: npc.listPackages ∧
      (packageApplier npc P 0).listPackages.head? = some P) ∧
    (P ∈ npc.listPackages → packageApplier npc P 0 = npc) := by
  refine ⟨fun hmem => ?_, fun hmem => packageApplier_of_mem npc P 0 hP hmem⟩
  rw [packageApplier_zero_of_not_mem npc P hP hmem]
  exact ⟨rfl, rfl⟩

/-- Claim C2 at package 9 on the list of packages 1 and 2. -/
theorem C2_index_zero_front_witness :
    (pack 9 ∉ [pack 1, pack 2] →
      (packageApplier { emptyNPC with listPackages := [pack 1, pack 2] } (pack 9) 0).listPackages
        = [pack 9, pack 1, pack 2] ∧
      (packageApplier { emptyNPC with listPackages := [pack 1, pack 2] } (pack 9) 0).listPackages.head?
        = some (pack 9)) ∧
    (pack 9 ∈ [pack 1, pack 2] →
      packageApplier { emptyNPC with listPackages := [pack 1, pack 2] } (pack 9) 0
        = { emptyNPC with listPackages := [pack 1, pack 2] }) :=
  C2_index_zero_front { emptyNPC with listPackages := [pack 1, pack 2] } (pack 9) rfl

/-- Claim C2 as stated fails: on the list of packages 1 and 2, the applier run for
package 2 with index 0 does not leave package 2 as the first element. -/
theorem C2_counterexample :
    (packageApplier { emptyNPC with listPackages := [pack 1, pack 2] } (pack 2) 0).listPackages.head?
      ≠ some (pack 2) := by
  decide

/-- Claim C3: if P occurs at most once in the package list, then after any sequence of
applications of the package applier for P, with arbitrary indices, P still occurs at most
once; and when P is already in the list, one application for P with any index leaves the
list unchanged. -/
theorem C3_no_duplicate (npc : TESNPC) (P : TESForm) (idxs : List Index)
    (h : npc.listPackages.count P ≤ 1) :
    (idxs.foldl (fun n i => packageApplier n P i) npc).listPackages.count P ≤ 1 ∧
    (P ∈ npc.listPackages →
      ∀ i : Index, (packageApplier npc P i).listPackages = npc.listPackages) := by
  refine ⟨?_, fun hmem i => packageApplier_listPackages_of_mem npc P i hmem⟩
  induction idxs generalizing npc with
  | nil => exact h
  | cons i rest ih =>
    rw [List.foldl_cons]
    exact ih (packageApplier npc P i) (packageApplier_count_le_one npc P i h)

/-- Claim C3 at package 2, on the list of packages 1 and 2, with indices 0, 3, 1. -/
theorem C3_no_duplicate_witness :
    ([0, 3, 1].foldl (fun n i => packageApplier n (pack 2) i)
        { emptyNPC with listPackages := [pack 1, pack 2] }).listPackages.count (pack 2) ≤ 1 ∧
    (pack 2 ∈ [pack 1, pack 2] →
      ∀ i : Index,
        (packageApplier { emptyNPC with listPackages := [pack 1, pack 2] } (pack 2) i).listPackages
          = [pack 1, pack 2]) :=
  C3_no_duplicate { emptyNPC with listPackages := [pack 1, pack 2] } (pack 2) [0, 3, 1] (by decide)

/-- Claim C10: for a form list F, the package applier with index 0, 1, 2, 3, 4 sets
exactly the default, spectator, observe-corpse, guard-warn, enter-combat slot to F (the
index as given, not decremented) and leaves every other field, the package list included,
unchanged; with any other index it leaves the whole record unchanged. -/
theorem C10_slot_mapping (npc : TESNPC) (F : TESForm) (i : Index)
    (hF : F.formType = FormType.kFLST) :
    (i = 0 → packageApplier npc F i = { npc with defaultPackList := some F }) ∧
    (i = 1 → packageApplier npc F i = { npc with spectatorOverRidePackList := some F }) ∧
    (i = 2 → packageApplier npc F i = { npc with observeCorpseOverRidePackList := some F }) ∧
    (i = 3 → packageApplier npc F i = { npc with guardWarnOverRidePackList := some F }) ∧
    (i = 4 → packageApplier npc F i = { npc with enterCombatOverRidePackList := some F }) ∧
    (i < 0 ∨ 4 < i → packageApplier npc F i = npc) := by
  have hne : ¬ F.formType = FormType.kPACK := by rw [hF]; decide
  refine ⟨?_, ?_, ?_, ?_, ?_, ?_⟩
  · intro h; subst h; simp [packageApplier, hF]
  · intro h; subst h; simp [packageApplier, hF]
  · intro h; subst h; simp [packageApplier, hF]
  · intro h; subst h; simp [packageApplier, hF]
  · intro h; subst h; simp [packageApplier, hF]
  · intro h
    have h0 : ¬ i = 0 := by
      intro hi; rw [hi] at h; exact absurd h (by decide)
    have h1 : ¬ i = 1 := by
      intro hi; rw [hi] at h; exact absurd h (by decide)
    have h2 : ¬ i = 2 := by
      intro hi; rw [hi] at h; exact absurd h (by decide)
    have h3 : ¬ i = 3 := by
      intro hi; rw [hi] at h; exact absurd h (by decide)
    have h4 : ¬ i = 4 := by
      intro hi; rw [hi] at h; exact absurd h (by decide)
    simp [packageApplier, hne, hF, h0, h1, h2, h3, h4]

/-- Claim C10 at form list 5 with index 1 on the empty record: the spectator slot is set. -/
theorem C10_slot_mapping_witness :
    packageApplier emptyNPC (flst 5) 1 = { emptyNPC with spectatorOverRidePackList := some (flst 5) } :=
  (C10_slot_mapping emptyNPC (flst 5) 1 rfl).2.1 rfl

/-! ### Outfit applier -/

/-- The record carries a keyword once it has been added. -/
theorem HasKeyword_AddKeyword (npc : TESNPC) (keyword : TESForm) :
    HasKeyword (AddKeyword npc keyword) keyword = true := by
  unfold AddKeyword HasKeyword
  by_cases h : keyword ∈ npc.keywords <;> simp [h]

/-- The outfit applier returns true exactly under the condition of line 101. -/
theorem outfitApplier_fst (processedOutfit : TESForm) (allowOverwrites : Bool) (npc : TESNPC)
    (O : TESForm) :
    (outfitApplier processedOutfit allowOverwrites npc O).1 = true ↔
      (npc.defOutfit ≠ some O ∧
        (allowOverwrites = true ∨ HasKeyword npc processedOutfit = false)) := by
  unfold outfitApplier
  split
  · rename_i h
    simpa using h
  · rename_i h
    simpa using h

/-- A record that carries the marker still carries it after the outfit applier. -/
theorem outfitApplier_keeps_marker (processedOutfit : TESForm) (allowOverwrites : Bool)
    (npc : TESNPC) (O : TESForm) (h : HasKeyword npc processedOutfit = true) :
    HasKeyword (outfitApplier processedOutfit allowOverwrites npc O).2 processedOutfit = true := by
  unfold outfitApplier
  split
  · exact HasKeyword_AddKeyword npc processedOutfit
  · exact h

/-- A record that carries the marker: the outfit applier without overwrite permission
returns false and the record as it was. -/
theorem outfitApplier_marked (processedOutfit : TESForm) (npc : TESNPC) (O : TESForm)
    (h : HasKeyword npc processedOutfit = true) :
    outfitApplier processedOutfit false npc O = (false, npc) := by
  simp [outfitApplier, h]

/-- The marker survives any sequence of outfit applications. -/
theorem outfit_sequence_keeps_marker (processedOutfit : TESForm) (later : List (Bool × TESForm))
    (npc : TESNPC) (h : HasKeyword npc processedOutfit = true) :
    HasKeyword (later.foldl (fun n a => (outfitApplier processedOutfit a.1 n a.2).2) npc)
      processedOutfit = true := by
  induction later generalizing npc with
  | nil => exact h
  | cons a rest ih =>
    rw [List.foldl_cons]
    exact ih _ (outfitApplier_keeps_marker processedOutfit a.1 npc a.2 h)

/-- Claim C4: on a record that carries the processed-outfit marker, the outfit applier
with allowOverwrites = false returns false and leaves the record unchanged, for every
outfit; so after one successful outfit application, and after any further outfit
applications, an application with allowOverwrites = false changes nothing. -/
theorem C4_marked_not_overwritten (processedOutfit : TESForm) (npc : TESNPC) :
    (HasKeyword npc processedOutfit = true →
      ∀ O : TESForm, outfitApplier processedOutfit false npc O = (false, npc)) ∧
    (∀ (allowOverwrites : Bool) (O : TESForm),
      (outfitApplier processedOutfit allowOverwrites npc O).1 = true →
      ∀ (later : List (Bool × TESForm)) (O2 : TESForm),
        outfitApplier processedOutfit false
            (later.foldl (fun n a => (outfitApplier processedOutfit a.1 n a.2).2)
              (outfitApplier processedOutfit allowOverwrites npc O).2) O2
          = (false,
            later.foldl (fun n a => (outfitApplier processedOutfit a.1 n a.2).2)
              (outfitApplier processedOutfit allowOverwrites npc O).2)) := by
  refine ⟨fun h O => outfitApplier_marked processedOutfit npc O h, ?_⟩
  intro allowOverwrites O hok later O2
  apply outfitApplier_marked
  apply outfit_sequence_keeps_marker
  have hcond := (outfitApplier_fst processedOutfit allowOverwrites npc O).1 hok
  unfold outfitApplier
  rw [if_pos (by
    refine ⟨hcond.1, ?_⟩
    rcases hcond.2 with h | h
    · exact Or.inl h
    · exact Or.inr (by simp [h]))]
  exact HasKeyword_AddKeyword npc processedOutfit

/-- Claim C4 on a record with the marker (keyword 1) and on the empty record after a
successful application of outfit 3: applying outfit 4 without overwrite permission
returns false and changes nothing. -/
theorem C4_marked_not_overwritten_witness :
    outfitApplier (TESForm.mk 1 FormType.kKYWD) false
        (outfitApplier (TESForm.mk 1 FormType.kKYWD) false emptyNPC
          (TESForm.mk 3 FormType.kOTFT)).2 (TESForm.mk 4 FormType.kOTFT)
      = (false, (outfitApplier (TESForm.mk 1 FormType.kKYWD) false emptyNPC
          (TESForm.mk 3 FormType.kOTFT)).2) :=
  (C4_marked_not_overwritten (TESForm.mk 1 FormType.kKYWD) emptyNPC).2 false
    (TESForm.mk 3 FormType.kOTFT) (by decide) [] (TESForm.mk 4 FormType.kOTFT)

/-- Claim C5: the outfit applier returns true if and only if the default outfit differs
from O and (allowOverwrites is true or the record does not carry the marker); when it
returns true the record afterwards has default outfit O and carries the marker; when it
returns false the record is unchanged. -/
theorem C5_outfit_contract (processedOutfit : TESForm) (allowOverwrites : Bool) (npc : TESNPC)
    (O : TESForm) :
    ((outfitApplier processedOutfit allowOverwrites npc O).1 = true ↔
      (npc.defOutfit ≠ some O ∧
        (allowOverwrites = true ∨ HasKeyword npc processedOutfit = false))) ∧
    ((outfitApplier processedOutfit allowOverwrites npc O).1 = true →
      (outfitApplier processedOutfit allowOverwrites npc O).2.defOutfit = some O ∧
      HasKeyword (outfitApplier processedOutfit allowOverwrites npc O).2 processedOutfit = true ∧
      (outfitApplier processedOutfit allowOverwrites npc O).2
        = { AddKeyword npc processedOutfit with defOutfit := some O }) ∧
    ((outfitApplier processedOutfit allowOverwrites npc O).1 = false →
      (outfitApplier processedOutfit allowOverwrites npc O).2 = npc) := by
  refine ⟨outfitApplier_fst processedOutfit allowOverwrites npc O, ?_, ?_⟩
  · unfold outfitApplier
    split
    · intro _
      refine ⟨rfl, ?_, rfl⟩
      have h := HasKeyword_AddKeyword npc processedOutfit
      unfold HasKeyword at h ⊢
      exact h
    · intro h; exact absurd h (by simp)
  · unfold outfitApplier
    split
    · intro h; exact absurd h (by simp)
    · intro _; rfl

/-! ### Cascade -/

/-- The trace of the cascade loop: one `Distribute` call with overwrite permission and a
null accumulator for each key that has a linked set, and no lookup. -/
theorem cascade_fold_trace (h : Host) (scope : Scope) (input : Input) (keys : DistributedForms)
    (st : DistState) :
    (keys.foldl
        (fun s form =>
          match h.linkedSet scope form with
          | some set => (Distribute5 h s input set true none).1
          | none => s) st).trace
      = st.trace ++ (keys.filterMap (h.linkedSet scope)).map
          (fun set => TraceEvent.distribute set true false) := by
  induction keys generalizing st with
  | nil => simp
  | cons k rest ih =>
    rw [List.foldl_cons, ih]
    cases hk : h.linkedSet scope k with
    | none => simp [hk]
    | some set => simp [hk, Distribute5]

/-- The trace of the first pass followed by the cascade, from a given state. -/
theorem pass_trace (h : Host) (scope : Scope) (input : Input) (entries : DistributionSet)
    (st : DistState) :
    (if !((Distribute5 h st input entries false (some [])).2.getD []).isEmpty then
        ForEachLinkedDistributionSet h scope ((Distribute5 h st input entries false (some [])).2.getD [])
          (fun s set => (Distribute5 h s input set true none).1)
          (Distribute5 h st input entries false (some [])).1
      else (Distribute5 h st input entries false (some [])).1).trace
      = st.trace ++ TraceEvent.distribute entries false true ::
          (if (h.for_each_form st.npc input entries false).2 = [] then []
            else TraceEvent.linkedLookup scope (h.for_each_form st.npc input entries false).2 ::
              ((h.for_each_form st.npc input entries false).2.filterMap (h.linkedSet scope)).map
                (fun set => TraceEvent.distribute set true false)) := by
  have hacc : (Distribute5 h st input entries false (some [])).2.getD []
      = (h.for_each_form st.npc input entries false).2 := by
    simp [Distribute5]
  rw [hacc]
  by_cases hnil : (h.for_each_form st.npc input entries false).2 = []
  · simp [hnil, Distribute5]
  · have hne : (!((h.for_each_form st.npc input entries false).2).isEmpty) = true := by
      simpa using hnil
    rw [if_pos hne, if_neg hnil]
    unfold ForEachLinkedDistributionSet
    rw [cascade_fold_trace]
    simp [Distribute5]

/-- A trace made of a first accumulating call, then (when forms were accumulated) one
lookup on those forms and calls with a null accumulator: every lookup in it is that one,
there is at most one, and no call after the first accumulates. -/
theorem depth_one_of_shape (scope : Scope) (entries : DistributionSet) (keys : DistributedForms)
    (sets : List DistributionSet) (t : List TraceEvent)
    (ht : t = TraceEvent.distribute entries false true ::
      (if keys = [] then []
        else TraceEvent.linkedLookup scope keys ::
          sets.map (fun set => TraceEvent.distribute set true false))) :
    (∀ sc ks, TraceEvent.linkedLookup sc ks ∈ t → sc = scope ∧ ks = keys) ∧
    (t.filter TraceEvent.isLookup).length ≤ 1 ∧
    (∀ e ∈ t.tail, e.accumulating = false) := by
  have hfilter : (sets.map (fun set => TraceEvent.distribute set true false)).filter
      TraceEvent.isLookup = [] := by
    rw [List.filter_eq_nil_iff]
    intro e he
    rcases List.mem_map.1 he with ⟨set, _, rfl⟩
    simp [TraceEvent.isLookup]
  subst ht
  by_cases hk : keys = []
  · simp [hk, TraceEvent.isLookup]
  · rw [if_neg hk]
    refine ⟨?_, ?_, ?_⟩
    · intro sc ks hmem
      simp only [List.mem_cons, List.mem_map] at hmem
      rcases hmem with hmem | hmem | ⟨set, _, hmem⟩
      · exact absurd hmem (by simp)
      · injection hmem with h1 h2
        exact ⟨h1, h2⟩
      · exact absurd hmem (by simp)
    · rw [List.filter_cons_of_neg (by simp [TraceEvent.isLookup]),
        List.filter_cons_of_pos (by simp [TraceEvent.isLookup]), hfilter]
      simp
    · intro e he
      simp only [List.tail_cons, List.mem_cons, List.mem_map] at he
      rcases he with he | ⟨set, _, he⟩
      · subst he; rfl
      · subst he; rfl

/-- The regular pass from a fresh trace: nothing when the level cap applies, and otherwise
the first accumulating call, then one lookup on its forms and the cascade calls. -/
theorem Distribute_trace (h : Host) (forms : DistributableSet) (npc : TESNPC) (input : Input) :
    (Distribute h forms { npc := npc, trace := [] } input).trace
      = if (input.onlyPlayerLevelEntries && h.HasHitLevelCap input) = true then []
        else TraceEvent.distribute (entriesOf forms input.onlyPlayerLevelEntries) false true ::
          (if (h.for_each_form npc input (entriesOf forms input.onlyPlayerLevelEntries) false).2 = []
            then []
            else TraceEvent.linkedLookup Scope.kRegular
                (h.for_each_form npc input (entriesOf forms input.onlyPlayerLevelEntries) false).2 ::
              ((h.for_each_form npc input (entriesOf forms input.onlyPlayerLevelEntries) false).2.filterMap
                (h.linkedSet Scope.kRegular)).map
                (fun set => TraceEvent.distribute set true false)) := by
  unfold Distribute
  by_cases hcap : (input.onlyPlayerLevelEntries && h.HasHitLevelCap input) = true
  · rw [if_pos hcap, if_pos hcap]
  · rw [if_neg hcap, if_neg hcap]
    have hp := pass_trace h Scope.kRegular input (entriesOf forms input.onlyPlayerLevelEntries)
      { npc := npc, trace := [] }
    simpa using hp

/-- A death notification that is not for a dead non-player actor with an NPC record:
`ProcessEvent` returns the continue value and the world as it was. -/
theorem ProcessEvent_ignored (h : Host) (m : DistributableSet) (w : World) (a_event : TESDeathEvent)
    (hguard : a_event.dead = false ∨ a_event.actorDying = none ∨
      ∃ ref, a_event.actorDying = some ref ∧
        (ref.IsPlayerRef = true ∨ ref.asActor = none ∨
          ∃ actor, ref.asActor = some actor ∧ actor.GetNPC = none)) :
    Manager.ProcessEvent h m w a_event = (BSEventNotifyControl.kContinue, w) := by
  unfold Manager.ProcessEvent
  rcases hguard with hd | hn | ⟨ref, href, hp | ha | ⟨actor, hact, hnpc⟩⟩
  · simp [hd]
  · simp [hn]
  · simp [href, hp]
  · simp [href, ha]
  · simp [href, hact, hnpc]

/-- A death notification for a dead non-player actor with an NPC record: the trace of
`ProcessEvent` from a fresh trace is the first accumulating call, then one lookup on its
forms and the cascade calls. -/
theorem ProcessEvent_trace (h : Host) (m : DistributableSet) (records : Nat → TESNPC)
    (a_event : TESDeathEvent) (ref : TESObjectREFR) (actor : Actor) (npc : Nat)
    (hd : a_event.dead = true) (href : a_event.actorDying = some ref)
    (hp : ref.IsPlayerRef = false) (hact : ref.asActor = some actor)
    (hnpc : actor.GetNPC = some npc) :
    (Manager.ProcessEvent h m { records := records, trace := [] } a_event).2.trace
      = TraceEvent.distribute (entriesOf m false) false true ::
          (if (h.for_each_form (records npc)
                { actor := actor.id, npc := npc, onlyPlayerLevelEntries := false }
                (entriesOf m false) false).2 = []
            then []
            else TraceEvent.linkedLookup Scope.kDeath
                (h.for_each_form (records npc)
                  { actor := actor.id, npc := npc, onlyPlayerLevelEntries := false }
                  (entriesOf m false) false).2 ::
              ((h.for_each_form (records npc)
                  { actor := actor.id, npc := npc, onlyPlayerLevelEntries := false }
                  (entriesOf m false) false).2.filterMap
                (h.linkedSet Scope.kDeath)).map
                (fun set => TraceEvent.distribute set true false)) := by
  have hpt := pass_trace h Scope.kDeath
    { actor := actor.id, npc := npc, onlyPlayerLevelEntries := false } (entriesOf m false)
    { npc := records npc, trace := [] }
  unfold Manager.ProcessEvent
  simp only [hd, href, hp, hact, hnpc, Option.bind, Bool.not_false, Bool.and_self, if_true]
  simpa using hpt

/-- The control value of `ProcessEvent` is the continue value for every notification. -/
theorem ProcessEvent_fst (h : Host) (m : DistributableSet) (w : World) (a_event : TESDeathEvent) :
    (Manager.ProcessEvent h m w a_event).1 = BSEventNotifyControl.kContinue := by
  unfold Manager.ProcessEvent
  simp only []
  split
  · split <;> rfl
  · rfl

/-- Claim C6: in the regular pass and in the death pass, every linked-distribution lookup
has as keys the forms accumulated by the first `Distribute` call, there is at most one
lookup, and no `Distribute` call after the first has an accumulator; so forms applied in
the cascade are never keys of a lookup. -/
theorem C6_cascade_depth_one (h : Host) :
    (∀ (forms : DistributableSet) (npc : TESNPC) (input : Input),
      (∀ sc ks, TraceEvent.linkedLookup sc ks ∈
          (Distribute h forms { npc := npc, trace := [] } input).trace →
        sc = Scope.kRegular ∧
        (Distribute5 h { npc := npc, trace := [] } input
          (entriesOf forms input.onlyPlayerLevelEntries) false (some [])).2 = some ks) ∧
      ((Distribute h forms { npc := npc, trace := [] } input).trace.filter
        TraceEvent.isLookup).length ≤ 1 ∧
      (∀ e ∈ (Distribute h forms { npc := npc, trace := [] } input).trace.tail,
        e.accumulating = false)) ∧
    (∀ (m : DistributableSet) (records : Nat → TESNPC) (a_event : TESDeathEvent),
      (∀ sc ks, TraceEvent.linkedLookup sc ks ∈
          (Manager.ProcessEvent h m { records := records, trace := [] } a_event).2.trace →
        sc = Scope.kDeath ∧
        ∃ ref actor npc, a_event.actorDying = some ref ∧ ref.asActor = some actor ∧
          actor.GetNPC = some npc ∧
          (Distribute5 h { npc := records npc, trace := [] }
            { actor := actor.id, npc := npc, onlyPlayerLevelEntries := false }
            (entriesOf m false) false (some [])).2 = some ks) ∧
      ((Manager.ProcessEvent h m { records := records, trace := [] } a_event).2.trace.filter
        TraceEvent.isLookup).length ≤ 1 ∧
      (∀ e ∈ (Manager.ProcessEvent h m { records := records, trace := [] } a_event).2.trace.tail,
        e.accumulating = false)) := by
  constructor
  · intro forms npc input
    rw [Distribute_trace]
    by_cases hcap : (input.onlyPlayerLevelEntries && h.HasHitLevelCap input) = true
    · rw [if_pos hcap]
      simp
    · rw [if_neg hcap]
      obtain ⟨h1, h2, h3⟩ := depth_one_of_shape Scope.kRegular
        (entriesOf forms input.onlyPlayerLevelEntries)
        (h.for_each_form npc input (entriesOf forms input.onlyPlayerLevelEntries) false).2
        ((h.for_each_form npc input (entriesOf forms input.onlyPlayerLevelEntries) false).2.filterMap
          (h.linkedSet Scope.kRegular)) _ rfl
      refine ⟨fun sc ks hmem => ?_, h2, h3⟩
      obtain ⟨hs, hk⟩ := h1 sc ks hmem
      exact ⟨hs, by simp [Distribute5, hk]⟩
  · intro m records a_event
    have hignored : ∀ hguard : (a_event.dead = false ∨ a_event.actorDying = none ∨
        ∃ ref, a_event.actorDying = some ref ∧
          (ref.IsPlayerRef = true ∨ ref.asActor = none ∨
            ∃ actor, ref.asActor = some actor ∧ actor.GetNPC = none)),
        (Manager.ProcessEvent h m { records := records, trace := [] } a_event).2.trace = [] := by
      intro hguard
      rw [ProcessEvent_ignored h m _ a_event hguard]
    by_cases hd : a_event.dead = false
    · rw [hignored (Or.inl hd)]; simp
    cases href : a_event.actorDying with
    | none => rw [hignored (Or.inr (Or.inl href))]; simp
    | some ref =>
      by_cases hp : ref.IsPlayerRef = true
      · rw [hignored (Or.inr (Or.inr ⟨ref, href, Or.inl hp⟩))]; simp
      cases hact : ref.asActor with
      | none => rw [hignored (Or.inr (Or.inr ⟨ref, href, Or.inr (Or.inl hact)⟩))]; simp
      | some actor =>
        cases hnpc : actor.GetNPC with
        | none =>
          rw [hignored (Or.inr (Or.inr ⟨ref, href, Or.inr (Or.inr ⟨actor, hact, hnpc⟩)⟩))]; simp
        | some npc =>
          rw [ProcessEvent_trace h m records a_event ref actor npc (by simpa using hd) href
            (by simpa using hp) hact hnpc]
          obtain ⟨h1, h2, h3⟩ := depth_one_of_shape Scope.kDeath (entriesOf m false)
            (h.for_each_form (records npc)
              { actor := actor.id, npc := npc, onlyPlayerLevelEntries := false }
              (entriesOf m false) false).2
            ((h.for_each_form (records npc)
              { actor := actor.id, npc := npc, onlyPlayerLevelEntries := false }
              (entriesOf m false) false).2.filterMap (h.linkedSet Scope.kDeath)) _ rfl
          refine ⟨fun sc ks hmem => ?_, h2, h3⟩
          obtain ⟨hs, hk⟩ := h1 sc ks hmem
          exact ⟨hs, ref, actor, npc, rfl, hact, hnpc, by simp [Distribute5, hk]⟩

/-- Claim C6 on a regular pass in which keyword 7 is distributed and has a linked set: the
trace is the first call, one lookup on keyword 7, and one cascade call; the outfit the
cascade reports is not looked up. -/
theorem C6_cascade_depth_one_witness :
    (Distribute sampleHost sampleManager { npc := emptyNPC, trace := [] }
        { actor := 20, npc := 7, onlyPlayerLevelEntries := false }).trace
      = [TraceEvent.distribute (entriesOf sampleManager false) false true,
         TraceEvent.linkedLookup Scope.kRegular [sampleRule.form],
         TraceEvent.distribute linkedOutfits true false] ∧
    ((Distribute sampleHost sampleManager { npc := emptyNPC, trace := [] }
        { actor := 20, npc := 7, onlyPlayerLevelEntries := false }).trace.filter
      TraceEvent.isLookup).length ≤ 1 :=
  ⟨by decide,
    ((C6_cascade_depth_one sampleHost).1 sampleManager emptyNPC
      { actor := 20, npc := 7, onlyPlayerLevelEntries := false }).2.1⟩

/-- Claim C9: for a death notification in which dead is false, or the dying reference is
absent, or it is the player, or it does not resolve to an actor with an NPC record,
`ProcessEvent` leaves every record and the trace as they were (no `Distribute` call, no
lookup) and returns the continue value; and it returns the continue value for every
notification. -/
theorem C9_death_event_guard (h : Host) (m : DistributableSet) (w : World) (a_event : TESDeathEvent)
    (hguard : a_event.dead = false ∨ a_event.actorDying = none ∨
      ∃ ref, a_event.actorDying = some ref ∧
        (ref.IsPlayerRef = true ∨ ref.asActor = none ∨
          ∃ actor, ref.asActor = some actor ∧ actor.GetNPC = none)) :
    Manager.ProcessEvent h m w a_event = (BSEventNotifyControl.kContinue, w) ∧
    ∀ (w2 : World) (e2 : TESDeathEvent),
      (Manager.ProcessEvent h m w2 e2).1 = BSEventNotifyControl.kContinue :=
  ⟨ProcessEvent_ignored h m w a_event hguard, fun w2 e2 => ProcessEvent_fst h m w2 e2⟩

/-- Claim C9 at the death of the player, with a keyword rule in the death namespace. -/
theorem C9_death_event_guard_witness :
    Manager.ProcessEvent sampleHost sampleManager sampleWorld playerDeath
      = (BSEventNotifyControl.kContinue, sampleWorld) ∧
    ∀ (w2 : World) (e2 : TESDeathEvent),
      (Manager.ProcessEvent sampleHost sampleManager w2 e2).1 = BSEventNotifyControl.kContinue :=
  C9_death_event_guard sampleHost sampleManager sampleWorld playerDeath
    (Or.inr (Or.inr ⟨{ IsPlayerRef := true, asActor := some { id := 20, GetNPC := some 7 } },
      rfl, Or.inl rfl⟩))

/-! ### Rule repositories and the death event subscription -/

/-- Claim C7, as the code has it: `Manager::IsEmpty` returns true if and only if the rule
list of every category is empty in the death namespace; the regular namespace is not read. -/
theorem C7_IsEmpty_death_namespace (r : Repositories) :
    Manager.IsEmpty r = true ↔ ∀ c : Category, r.death.ruleList c = [] := by
  unfold Manager.IsEmpty
  simp only [Bool.and_eq_true, List.isEmpty_iff]
  constructor
  · rintro ⟨⟨⟨⟨⟨⟨⟨⟨⟨h1, h2⟩, h3⟩, h4⟩, h5⟩, h6⟩, h7⟩, h8⟩, h9⟩, h10⟩ c
    cases c <;> simp only [DistributableSet.ruleList] <;> assumption
  · intro hall
    exact ⟨⟨⟨⟨⟨⟨⟨⟨⟨hall Category.Spell, hall Category.Perk⟩, hall Category.Item⟩,
      hall Category.LeveledSpell⟩, hall Category.Package⟩, hall Category.Outfit⟩,
      hall Category.Keyword⟩, hall Category.Faction⟩, hall Category.SleepOutfit⟩,
      hall Category.Skin⟩

/-- Claim C7 as stated fails: with one regular spell rule and no death rule, `IsEmpty`
returns true although not every rule list is empty across both namespaces. -/
theorem C7_counterexample :
    ¬ (Manager.IsEmpty regularOnly = true ↔
        ((∀ c : Category, regularOnly.regular.ruleList c = []) ∧
          ∀ c : Category, regularOnly.death.ruleList c = [])) := by
  intro hiff
  have hall := (hiff.1 (by decide)).1 Category.Spell
  exact absurd hall (by decide)

/-- The subscript operator leaves a map with at least one key. -/
theorem Map.subscript_ne_nil (m : Map) (key : RECORD.TYPE) : m.subscript key ≠ [] := by
  unfold Map.subscript
  split
  · rename_i hany
    intro hnil
    rw [hnil] at hany
    simp at hany
  · simp

/-- The subscript operator stores no entry. -/
theorem Map.storedEntries_subscript (m : Map) (key : RECORD.TYPE) :
    (m.subscript key).storedEntries = m.storedEntries := by
  unfold Map.subscript Map.storedEntries
  split
  · rfl
  · simp

/-- After `LookupForms`, whatever the map was before: `deathConfigs` has a key, `Register`
subscribes, and the number of stored entries is what it was. -/
theorem LookupForms_then_Register (types : List RECORD.TYPE) (m : Map) :
    Manager.Register (Manager.LookupForms_deathConfigs types m) = true ∧
    Map.storedEntries (Manager.LookupForms_deathConfigs types m) = Map.storedEntries m := by
  constructor
  · unfold Manager.Register Manager.LookupForms_deathConfigs Map.empty
    have hne := Map.subscript_ne_nil
      ((types.foldl (fun m t => m.subscript t) m).subscript RECORD.TYPE.kSpell) RECORD.TYPE.kForm
    simp [hne]
  · unfold Manager.LookupForms_deathConfigs
    rw [Map.storedEntries_subscript, Map.storedEntries_subscript]
    induction types generalizing m with
    | nil => rfl
    | cons t rest ih => rw [List.foldl_cons, ih, Map.storedEntries_subscript]

/-- Claim C8 on the code: after `LookupForms` on the empty `deathConfigs`, with no call of
`TryParse`, the state is reachable, no entry is stored under any key, yet the map has keys
and `Register` subscribes to the death event; so it is not true that in every reachable
state `Register` subscribes only if a death rule is stored. -/
theorem C8_register_without_death_rule :
    (ReachableConfigs (Manager.LookupForms_deathConfigs distributableTypes []) ∧
      Map.storedEntries (Manager.LookupForms_deathConfigs distributableTypes []) = 0 ∧
      Map.empty (Manager.LookupForms_deathConfigs distributableTypes []) = false ∧
      Manager.Register (Manager.LookupForms_deathConfigs distributableTypes []) = true) ∧
    ¬ (∀ m : Map, ReachableConfigs m → Manager.Register m = true → 0 < Map.storedEntries m) := by
  have hreach : ReachableConfigs (Manager.LookupForms_deathConfigs distributableTypes []) :=
    ReachableConfigs.lookupForms distributableTypes [] ReachableConfigs.init
  refine ⟨⟨hreach, by decide, by decide, by decide⟩, fun hall => ?_⟩
  have hpos := hall _ hreach (by decide)
  exact absurd hpos (by decide)

/-! ### Generic form classification -/

/-- The callback on a package or package list form: the rule goes to the packages
repository with the index of lines 122-131, and no other repository changes. -/
theorem genericFormCallback_package (e : LookupHost) (m : DistributableSet) (isValid : Bool)
    (form : TESForm) (idxOrCount : IndexOrCount) (filters path : Nat)
    (hform : form.formType = FormType.kPACK ∨ form.formType = FormType.kFLST) :
    (genericFormCallback e m isValid form idxOrCount filters path).1
      = { m with
          packages := e.EmplaceForm m.packages isValid
            (FormData.mk form (storedSelection Category.Package idxOrCount) filters path) } := by
  rcases hform with h | h <;> cases idxOrCount <;>
    simp [genericFormCallback, TESForm.As, TESForm.AsBoundObject, FormType.IsBoundObject, h,
      storedSelection]

/-- The category inferred for a form is decided by its type tag alone. -/
theorem inferredCategory_eq (form : TESForm) :
    inferredCategory form =
      match form.formType with
      | FormType.kKYWD => some Category.Keyword
      | FormType.kSPEL => some Category.Spell
      | FormType.kLVSP => some Category.LeveledSpell
      | FormType.kPERK => some Category.Perk
      | FormType.kARMO => some Category.Item
      | FormType.kMISC => some Category.Item
      | FormType.kOTFT => some Category.Outfit
      | FormType.kFACT => some Category.Faction
      | FormType.kPACK => some Category.Package
      | FormType.kFLST => some Category.Package
      | FormType.kNONE => none := by
  rcases form with ⟨id, ty⟩
  cases ty <;> rfl

/-- One more entry at the end of the list of generic forms: the loop runs the callback on
what the loop left for the entries before it. -/
theorem LookupForms_genericForms_append (e : LookupHost) (earlier : List INI.Data)
    (rawForm : INI.Data) (m : DistributableSet) (isValid : Bool) (form : TESForm)
    (idxOrCount : IndexOrCount) (filters path : Nat)
    (hlookup : e.LookupGenericForm rawForm = some (isValid, form, idxOrCount, filters, path)) :
    (Manager.LookupForms_genericForms e (earlier ++ [rawForm]) m).1
      = (genericFormCallback e (Manager.LookupForms_genericForms e earlier m).1
          isValid form idxOrCount filters path).1 := by
  unfold Manager.LookupForms_genericForms
  rw [List.foldl_append]
  simp [hlookup]

/-- Claim C11: a generic death-form entry that resolves to a package or package list form
is always handed to `EmplaceForm` of the packages repository, whatever entries came before
it; the index stored is the minimum of the range when the selection value is a random
count (exact or not), and the given index when it is an index; no other repository
changes. -/
theorem C11_package_index_fallback (e : LookupHost) (earlier : List INI.Data) (rawForm : INI.Data)
    (m : DistributableSet) (isValid : Bool) (form : TESForm) (idxOrCount : IndexOrCount)
    (filters path : Nat)
    (hlookup : e.LookupGenericForm rawForm = some (isValid, form, idxOrCount, filters, path))
    (hform : form.formType = FormType.kPACK ∨ form.formType = FormType.kFLST) :
    (∀ min max : Int, idxOrCount = IndexOrCount.count min max →
      (Manager.LookupForms_genericForms e (earlier ++ [rawForm]) m).1
        = { (Manager.LookupForms_genericForms e earlier m).1 with
            packages := e.EmplaceForm (Manager.LookupForms_genericForms e earlier m).1.packages
              isValid (FormData.mk form (IndexOrCount.index min) filters path) }) ∧
    (∀ i : Index, idxOrCount = IndexOrCount.index i →
      (Manager.LookupForms_genericForms e (earlier ++ [rawForm]) m).1
        = { (Manager.LookupForms_genericForms e earlier m).1 with
            packages := e.EmplaceForm (Manager.LookupForms_genericForms e earlier m).1.packages
              isValid (FormData.mk form (IndexOrCount.index i) filters path) }) := by
  rw [LookupForms_genericForms_append e earlier rawForm m isValid form idxOrCount filters path
    hlookup, genericFormCallback_package e _ isValid form idxOrCount filters path hform]
  constructor
  · intro min max h; subst h; rfl
  · intro i h; subst h; rfl

/-- Claim C11 at one entry with the non-exact random count 2 to 5 that resolves to
package 4: the packages list holds the rule with index 2. -/
theorem C11_package_index_fallback_witness :
    (Manager.LookupForms_genericForms sampleLookupHost
        ([] ++ [{ sampleData with idxOrCount := IndexOrCount.count 2 5 }])
        DistributableSet.noRules).1
      = { DistributableSet.noRules with
          packages := { forms := [FormData.mk (pack 4) (IndexOrCount.index 2) 0 0],
                        formsWithLevels := [] } } :=
  (C11_package_index_fallback sampleLookupHost []
    { sampleData with idxOrCount := IndexOrCount.count 2 5 } DistributableSet.noRules
    true (pack 4) (IndexOrCount.count 2 5) 0 0 rfl (Or.inl rfl)).1 2 5 rfl

/-- The callback leaves the sleep outfit and skin repositories as they were. -/
theorem genericFormCallback_sleepOutfits_skins (e : LookupHost) (m : DistributableSet)
    (isValid : Bool) (form : TESForm) (idxOrCount : IndexOrCount) (filters path : Nat) :
    (genericFormCallback e m isValid form idxOrCount filters path).1.sleepOutfits = m.sleepOutfits ∧
    (genericFormCallback e m isValid form idxOrCount filters path).1.skins = m.skins := by
  rcases form with ⟨id, ty⟩
  cases ty <;> cases idxOrCount <;>
    simp [genericFormCallback, TESForm.As, TESForm.AsBoundObject, FormType.IsBoundObject]

/-- The loop over the generic forms leaves the sleep outfit and skin repositories as they
were. -/
theorem LookupForms_genericForms_sleepOutfits_skins (e : LookupHost) (genericForms : List INI.Data)
    (m : DistributableSet) :
    (Manager.LookupForms_genericForms e genericForms m).1.sleepOutfits = m.sleepOutfits ∧
    (Manager.LookupForms_genericForms e genericForms m).1.skins = m.skins := by
  unfold Manager.LookupForms_genericForms
  generalize ([] : List Diagnostic) = log
  induction genericForms generalizing m log with
  | nil => exact ⟨rfl, rfl⟩
  | cons rawForm rest ih =>
    rw [List.foldl_cons]
    cases hlookup : e.LookupGenericForm rawForm with
    | none => exact ih m log
    | some args =>
      obtain ⟨isValid, form, idxOrCount, filters, path⟩ := args
      have hstep := genericFormCallback_sleepOutfits_skins e m isValid form idxOrCount filters path
      have hrest := ih (genericFormCallback e m isValid form idxOrCount filters path).1
        (log ++ (genericFormCallback e m isValid form idxOrCount filters path).2)
      exact ⟨hrest.1.trans hstep.1, hrest.2.trans hstep.2⟩

/-- The callback hands a generic form to `EmplaceForm` of the repository of its inferred
category and changes no other repository; with no inferred category it changes nothing and
logs the unsupported type; the inferred category is never SleepOutfit or Skin. -/
theorem genericFormCallback_inference (e : LookupHost) (m : DistributableSet) (isValid : Bool)
    (form : TESForm) (idxOrCount : IndexOrCount) (filters path : Nat) :
    (∀ c : Category, inferredCategory form = some c →
      (genericFormCallback e m isValid form idxOrCount filters path).1.get c
        = e.EmplaceForm (m.get c) isValid
            (FormData.mk form (storedSelection c idxOrCount) filters path)) ∧
    (∀ c : Category, inferredCategory form ≠ some c →
      (genericFormCallback e m isValid form idxOrCount filters path).1.get c = m.get c) ∧
    (inferredCategory form = none →
      genericFormCallback e m isValid form idxOrCount filters path
        = (m, [Diagnostic.unsupportedFormType path form.formType])) ∧
    inferredCategory form ≠ some Category.SleepOutfit ∧
    inferredCategory form ≠ some Category.Skin := by
  refine ⟨?_, ?_, ?_, ?_, ?_⟩
  · intro c hc
    rw [inferredCategory_eq] at hc
    rcases form with ⟨id, ty⟩
    cases ty <;> cases idxOrCount <;> cases c <;>
      simp_all [genericFormCallback, TESForm.As, TESForm.AsBoundObject, FormType.IsBoundObject,
        DistributableSet.get, storedSelection]
  · intro c hc
    rw [inferredCategory_eq] at hc
    rcases form with ⟨id, ty⟩
    cases ty <;> cases idxOrCount <;> cases c <;>
      simp_all [genericFormCallback, TESForm.As, TESForm.AsBoundObject, FormType.IsBoundObject,
        DistributableSet.get]
  · intro hc
    rw [inferredCategory_eq] at hc
    rcases form with ⟨id, ty⟩
    cases ty <;>
      simp_all [genericFormCallback, TESForm.As, TESForm.AsBoundObject, FormType.IsBoundObject]
  · rw [inferredCategory_eq]
    rcases form with ⟨id, ty⟩
    cases ty <;> simp
  · rw [inferredCategory_eq]
    rcases form with ⟨id, ty⟩
    cases ty <;> simp

/-- One more entry at the end of the list of generic forms, for which the callback is
called: the loop gives the manager the callback leaves and adds its warnings to the log. -/
theorem LookupForms_genericForms_snoc (e : LookupHost) (earlier : List INI.Data)
    (rawForm : INI.Data) (m : DistributableSet) (isValid : Bool) (form : TESForm)
    (idxOrCount : IndexOrCount) (filters path : Nat)
    (hlookup : e.LookupGenericForm rawForm = some (isValid, form, idxOrCount, filters, path)) :
    Manager.LookupForms_genericForms e (earlier ++ [rawForm]) m
      = ((genericFormCallback e (Manager.LookupForms_genericForms e earlier m).1
            isValid form idxOrCount filters path).1,
          (Manager.LookupForms_genericForms e earlier m).2 ++
            (genericFormCallback e (Manager.LookupForms_genericForms e earlier m).1
              isValid form idxOrCount filters path).2) := by
  unfold Manager.LookupForms_genericForms
  rw [List.foldl_append]
  simp [hlookup]

/-- One more entry at the end of the list of generic forms, for which the callback is not
called: the loop leaves the manager and the log as the entries before it left them. -/
theorem LookupForms_genericForms_snoc_none (e : LookupHost) (earlier : List INI.Data)
    (rawForm : INI.Data) (m : DistributableSet) (hlookup : e.LookupGenericForm rawForm = none) :
    Manager.LookupForms_genericForms e (earlier ++ [rawForm]) m
      = Manager.LookupForms_genericForms e earlier m := by
  unfold Manager.LookupForms_genericForms
  rw [List.foldl_append]
  simp [hlookup]

/-- Claim C14: for every generic death-form entry, after any entries before it, the loop of
`LookupForms` hands the form the entry resolves to to `EmplaceForm` of the repository of its
inferred category (the first test that succeeds in the order keyword, spell, leveled
spell, perk, item, outfit, faction, package or package list) and changes no other
repository; with no inferred category it changes no repository and logs the unsupported
type; an entry that does not resolve changes nothing; the inferred category is never
SleepOutfit or Skin, and the loop never changes the sleep outfit and skin repositories. -/
theorem C14_generic_inference (e : LookupHost) (m : DistributableSet) (earlier : List INI.Data)
    (rawForm : INI.Data) :
    (∀ (isValid : Bool) (form : TESForm) (idxOrCount : IndexOrCount) (filters path : Nat),
      e.LookupGenericForm rawForm = some (isValid, form, idxOrCount, filters, path) →
      (∀ c : Category, inferredCategory form = some c →
        (Manager.LookupForms_genericForms e (earlier ++ [rawForm]) m).1.get c
          = e.EmplaceForm ((Manager.LookupForms_genericForms e earlier m).1.get c) isValid
              (FormData.mk form (storedSelection c idxOrCount) filters path)) ∧
      (∀ c : Category, inferredCategory form ≠ some c →
        (Manager.LookupForms_genericForms e (earlier ++ [rawForm]) m).1.get c
          = (Manager.LookupForms_genericForms e earlier m).1.get c) ∧
      (inferredCategory form = none →
        Manager.LookupForms_genericForms e (earlier ++ [rawForm]) m
          = ((Manager.LookupForms_genericForms e earlier m).1,
              (Manager.LookupForms_genericForms e earlier m).2 ++
                [Diagnostic.unsupportedFormType path form.formType])) ∧
      inferredCategory form ≠ some Category.SleepOutfit ∧
      inferredCategory form ≠ some Category.Skin) ∧
    (e.LookupGenericForm rawForm = none →
      Manager.LookupForms_genericForms e (earlier ++ [rawForm]) m
        = Manager.LookupForms_genericForms e earlier m) ∧
    (∀ genericForms : List INI.Data,
      (Manager.LookupForms_genericForms e genericForms m).1.sleepOutfits = m.sleepOutfits ∧
      (Manager.LookupForms_genericForms e genericForms m).1.skins = m.skins) := by
  refine ⟨?_, fun hnone => LookupForms_genericForms_snoc_none e earlier rawForm m hnone,
    fun genericForms => LookupForms_genericForms_sleepOutfits_skins e genericForms m⟩
  intro isValid form idxOrCount filters path hlookup
  have hsnoc := LookupForms_genericForms_snoc e earlier rawForm m isValid form idxOrCount
    filters path hlookup
  obtain ⟨h1, h2, h3, h4, h5⟩ := genericFormCallback_inference e
    (Manager.LookupForms_genericForms e earlier m).1 isValid form idxOrCount filters path
  refine ⟨?_, ?_, ?_, h4, h5⟩
  · intro c hc
    rw [hsnoc]
    exact h1 c hc
  · intro c hc
    rw [hsnoc]
    exact h2 c hc
  · intro hc
    rw [hsnoc, h3 hc]

/-- Claim C14 on two entries, the first resolving to keyword 11 and the second to form 12
of no supported type: the keywords repository holds the rule for keyword 11, the other
repositories hold nothing, and the unsupported type is logged. -/
theorem C14_generic_inference_witness :
    Manager.LookupForms_genericForms typedLookupHost
        ([sampleData] ++ [{ sampleData with rawForm := 12 }]) DistributableSet.noRules
      = ({ DistributableSet.noRules with
            keywords := { forms := [FormData.mk { formID := 11, formType := FormType.kKYWD }
                                      (IndexOrCount.count 1 1) 0 0],
                          formsWithLevels := [] } },
          [Diagnostic.unsupportedFormType 0 FormType.kNONE]) :=
  ((C14_generic_inference typedLookupHost DistributableSet.noRules [sampleData]
      { sampleData with rawForm := 12 }).1 true { formID := 12, formType := FormType.kNONE }
      (IndexOrCount.count 1 1) 0 0 rfl).2.2.1 rfl

/-! ### Faction, sleep outfit and skin appliers -/

/-- The faction applier places every faction handed to it, in order, at the back of the
faction list with rank 1, and changes no other field. -/
theorem factionApplier_eq (npc : TESNPC) (a_factions : List TESForm) :
    factionApplier npc a_factions
      = { npc with
          factions := npc.factions ++
            a_factions.map (fun faction => { faction := faction, rank := 1 }) } := by
  unfold factionApplier
  induction a_factions generalizing npc with
  | nil => simp
  | cons faction rest ih =>
    rw [List.foldl_cons, ih]
    simp

/-- The factions collected for the applier are not present on the record and are pairwise
distinct, from any collection so far that is so. -/
theorem collectFactions_fold (passes : FormData → Bool) (npc : TESNPC) (forms : DataVec)
    (collected : List TESForm)
    (hnew : ∀ faction ∈ collected, faction ∉ npc.factions.map (fun entry => entry.faction))
    (hnodup : collected.Nodup) :
    (∀ faction ∈ forms.foldl
        (fun collected formData =>
          if passes formData = true ∧
              formData.form ∉ npc.factions.map (fun entry => entry.faction) ∧
              formData.form ∉ collected then
            collected ++ [formData.form]
          else
            collected) collected,
      faction ∉ npc.factions.map (fun entry => entry.faction)) ∧
    (forms.foldl
        (fun collected formData =>
          if passes formData = true ∧
              formData.form ∉ npc.factions.map (fun entry => entry.faction) ∧
              formData.form ∉ collected then
            collected ++ [formData.form]
          else
            collected) collected).Nodup := by
  induction forms generalizing collected with
  | nil => exact ⟨hnew, hnodup⟩
  | cons formData rest ih =>
    rw [List.foldl_cons]
    by_cases hc : passes formData = true ∧
        formData.form ∉ npc.factions.map (fun entry => entry.faction) ∧
        formData.form ∉ collected
    · rw [if_pos hc]
      apply ih
      · intro faction hfaction
        rcases List.mem_append.1 hfaction with h | h
        · exact hnew faction h
        · rw [List.mem_singleton.1 h]
          exact hc.2.1
      · rw [List.nodup_append]
        refine ⟨hnodup, List.nodup_singleton _, ?_⟩
        intro a ha hb
        rw [List.mem_singleton.1 hb] at ha
        exact hc.2.2 ha
    · rw [if_neg hc]
      exact ih collected hnew hnodup

/-- Claim C12: in the faction pass, a faction is appended to the faction list only if it
is not already present (no appended faction was on the record, and none is appended
twice); every appended entry has rank 1; the entries that were there before stay, with
their ranks, at the front of the list; no other field changes. -/
theorem C12_faction_additive_rank_one (passes : FormData → Bool) (npc : TESNPC) (forms : DataVec) :
    distributeFactions passes npc forms
      = { npc with
          factions := npc.factions ++
            (collectFactions passes npc forms).map
              (fun faction => { faction := faction, rank := 1 }) } ∧
    (distributeFactions passes npc forms).factions.take npc.factions.length = npc.factions ∧
    (∀ entry ∈ (distributeFactions passes npc forms).factions.drop npc.factions.length,
      entry.rank = 1 ∧ entry.faction ∉ npc.factions.map (fun old => old.faction)) ∧
    (((distributeFactions passes npc forms).factions.drop npc.factions.length).map
      (fun entry => entry.faction)).Nodup := by
  obtain ⟨hnew, hnodup⟩ := collectFactions_fold passes npc forms []
    (fun _ h => absurd h (List.not_mem_nil _)) List.nodup_nil
  have hmap : ((collectFactions passes npc forms).map
      (fun faction => ({ faction := faction, rank := 1 } : FACTION_RANK))).map
      (fun entry => entry.faction) = collectFactions passes npc forms := by
    rw [List.map_map]
    exact (List.map_congr_left (fun _ _ => rfl)).trans (List.map_id _)
  unfold distributeFactions
  rw [factionApplier_eq]
  refine ⟨rfl, ?_, ?_, ?_⟩
  · simp
  · intro entry hentry
    simp only [List.drop_left] at hentry
    rcases List.mem_map.1 hentry with ⟨faction, hfaction, rfl⟩
    exact ⟨rfl, hnew faction hfaction⟩
  · simp only [List.drop_left]
    rw [hmap]
    exact hnodup

/-- Claim C12 on a record that has faction 1 with rank 2, with passing rules for faction 1,
faction 2 and faction 2 again: faction 2 alone is appended, once, with rank 1. -/
theorem C12_faction_additive_rank_one_witness :
    distributeFactions (fun _ => true)
        { emptyNPC with factions := [{ faction := fact 1, rank := 2 }] }
        [FormData.mk (fact 1) (IndexOrCount.count 1 1) 0 0,
         FormData.mk (fact 2) (IndexOrCount.count 1 1) 0 0,
         FormData.mk (fact 2) (IndexOrCount.count 1 1) 0 0]
      = { emptyNPC with
          factions := [{ faction := fact 1, rank := 2 }, { faction := fact 2, rank := 1 }] } :=
  (C12_faction_additive_rank_one (fun _ => true)
    { emptyNPC with factions := [{ faction := fact 1, rank := 2 }] }
    [FormData.mk (fact 1) (IndexOrCount.count 1 1) 0 0,
     FormData.mk (fact 2) (IndexOrCount.count 1 1) 0 0,
     FormData.mk (fact 2) (IndexOrCount.count 1 1) 0 0]).1.trans (by decide)

/-- Claim C13: the sleep outfit applier and the skin applier return true if and only if the
field differs from the reference; afterwards the field is the reference and no other field
has changed; the result does not depend on allowOverwrites nor on the keywords of the
record (the marker among them); a second application of the same reference returns false
and changes nothing. -/
theorem C13_unconditional_override (allowOverwrites : Bool) (npc : TESNPC) (R : TESForm) :
    (((sleepOutfitApplier allowOverwrites npc R).1 = true ↔ npc.sleepOutfit ≠ some R) ∧
      (sleepOutfitApplier allowOverwrites npc R).2 = { npc with sleepOutfit := some R } ∧
      (∀ other : Bool, sleepOutfitApplier other npc R = sleepOutfitApplier allowOverwrites npc R) ∧
      (∀ keywords : List TESForm,
        sleepOutfitApplier allowOverwrites { npc with keywords := keywords } R
          = ((sleepOutfitApplier allowOverwrites npc R).1,
              { (sleepOutfitApplier allowOverwrites npc R).2 with keywords := keywords })) ∧
      sleepOutfitApplier allowOverwrites (sleepOutfitApplier allowOverwrites npc R).2 R
        = (false, (sleepOutfitApplier allowOverwrites npc R).2)) ∧
    (((skinApplier allowOverwrites npc R).1 = true ↔ npc.formSkin ≠ some R) ∧
      (skinApplier allowOverwrites npc R).2 = { npc with formSkin := some R } ∧
      (∀ other : Bool, skinApplier other npc R = skinApplier allowOverwrites npc R) ∧
      (∀ keywords : List TESForm,
        skinApplier allowOverwrites { npc with keywords := keywords } R
          = ((skinApplier allowOverwrites npc R).1,
              { (skinApplier allowOverwrites npc R).2 with keywords := keywords })) ∧
      skinApplier allowOverwrites (skinApplier allowOverwrites npc R).2 R
        = (false, (skinApplier allowOverwrites npc R).2)) := by
  constructor
  · unfold sleepOutfitApplier
    by_cases h : npc.sleepOutfit = some R
    · have hnpc : ({ npc with sleepOutfit := some R } : TESNPC) = npc := by
        cases npc; simp_all
      simp [h, hnpc]
    · simp [h]
  · unfold skinApplier
    by_cases h : npc.formSkin = some R
    · have hnpc : ({ npc with formSkin := some R } : TESNPC) = npc := by
        cases npc; simp_all
      simp [h, hnpc]
    · simp [h]

/-! ### Package insertion against its reference definition -/

/-- The search loop stops at the node at distance `packageIdx` from `begin()` when the list
has such a node at or after the node it started from, and reaches `end()` otherwise. -/
theorem seekIdx_eq (packageIdx : Int) (L : List TESForm) (idx : Nat) :
    seekIdx packageIdx L idx
      = if (idx : Int) ≤ packageIdx ∧ packageIdx < (idx : Int) + (L.length : Int)
        then some packageIdx.toNat else none := by
  induction L generalizing idx with
  | nil =>
    have hfalse : ¬ ((idx : Int) ≤ packageIdx ∧ packageIdx < (idx : Int) + ((0 : Nat) : Int)) := by
      omega
    simp only [seekIdx, List.length_nil]
    rw [if_neg hfalse]
  | cons x rest ih =>
    simp only [seekIdx, List.length_cons]
    by_cases hEq : packageIdx = (idx : Int)
    · rw [if_pos hEq, if_pos (by omega)]
      subst hEq
      simp
    · rw [if_neg hEq, ih (idx + 1)]
      by_cases hc : ((idx : Int) ≤ packageIdx ∧
          packageIdx < (idx : Int) + ((rest.length + 1 : Nat) : Int))
      · rw [if_pos hc, if_pos (by omega)]
      · rw [if_neg hc, if_neg (by omega)]

/-- Splitting a list at a position within it and putting a form in between is inserting
the form at that position. -/
theorem take_append_cons_drop (P : TESForm) (n : Nat) (L : List TESForm) (hn : n ≤ L.length) :
    L.take n ++ P :: L.drop n = List.insertIdx n P L := by
  induction n generalizing L with
  | zero => simp
  | succ k ih =>
    cases L with
    | nil => simp at hn
    | cons x rest =>
      rw [List.insertIdx_succ_cons, ← ih rest (by simpa using hn)]
      simp

/-- The package applier for a package and a non-negative index: the package list afterwards
is that of the reference definition, and no other field changes. -/
theorem packageApplier_eq_reference (npc : TESNPC) (P : TESForm) (N : Int)
    (hP : P.formType = FormType.kPACK) (hN : 0 ≤ N) :
    packageApplier npc P N
      = { npc with listPackages := packageInsertionReference npc.listPackages P N } := by
  have hnpc : ∀ n : TESNPC, ({ n with listPackages := n.listPackages } : TESNPC) = n := by
    intro n; cases n; rfl
  unfold packageInsertionReference
  by_cases hmem : P ∈ npc.listPackages
  · rw [packageApplier_of_mem npc P N hP hmem, if_pos hmem, hnpc]
  · rw [if_neg hmem]
    unfold packageApplier
    simp only [hP, hmem, not_false_eq_true, if_true]
    by_cases hfront : npc.listPackages = [] ∨ N ≤ 1
    · have hcode : npc.listPackages.isEmpty = true ∨ (if N > 0 then N - 1 else N) = 0 := by
        rcases hfront with h | h
        · left; simp [h]
        · right
          by_cases hpos : N > 0
          · rw [if_pos hpos]; omega
          · rw [if_neg hpos]; omega
      rw [if_pos hcode, if_pos hfront]
    · have hN2 : 2 ≤ N := by
        by_contra hlt
        exact hfront (Or.inr (by omega))
      have hne : npc.listPackages ≠ [] := fun h => hfront (Or.inl h)
      have hdec : (if N > 0 then N - 1 else N) = N - 1 := by
        rw [if_pos (by omega)]
      have hcode : ¬ (npc.listPackages.isEmpty = true ∨ (if N > 0 then N - 1 else N) = 0) := by
        rw [hdec]
        intro h
        rcases h with h | h
        · exact hne (by simpa using h)
        · omega
      rw [if_neg hcode, if_neg hfront, hdec, seekIdx_eq]
      by_cases hlen : N ≤ (npc.listPackages.length : Int)
      · rw [if_pos (by
          constructor
          · simp only [Nat.cast_zero]; omega
          · simp only [Nat.cast_zero]; omega), if_pos hlen]
        have hidx : (N - 1).toNat + 1 = N.toNat := by omega
        simp only [insert_after, hidx]
        rw [take_append_cons_drop P N.toNat npc.listPackages (by omega)]
      · rw [if_neg (by
          intro h
          simp only [Nat.cast_zero] at h
          omega), if_neg hlen, hnpc]

/-- The reference definition yields the list itself, or the list with the package in
front, or the list with the package between its first n and its other elements, for some n
that is at least 2 and at most the length. -/
theorem packageInsertionReference_cases (L : List TESForm) (P : TESForm) (N : Int) :
    packageInsertionReference L P N = L ∨
    packageInsertionReference L P N = P :: L ∨
    ∃ n : Nat, 2 ≤ n ∧ n ≤ L.length ∧
      packageInsertionReference L P N = L.take n ++ P :: L.drop n := by
  unfold packageInsertionReference
  by_cases hmem : P ∈ L
  · left; rw [if_pos hmem]
  · rw [if_neg hmem]
    by_cases hfront : L = [] ∨ N ≤ 1
    · right; left; rw [if_pos hfront]
    · rw [if_neg hfront]
      by_cases hlen : N ≤ (L.length : Int)
      · right; right
        rw [if_pos hlen]
        have hN2 : 2 ≤ N := by
          by_contra hlt
          exact hfront (Or.inr (by omega))
        exact ⟨N.toNat, by omega, by omega,
          (take_append_cons_drop P N.toNat L (by omega)).symm⟩
      · left; rw [if_neg hlen]

/-- Claim C15: for a package P and an index N that is not negative, the package list after
the applier is that of the reference definition (L if P is in L; else P in front if L is
empty or N is at most 1; else P at 0-based position N if N is at most the length; else L),
and no other field changes; indices 0 and 1 give the same record; a package that was not
in the list is never at 0-based position 1 afterwards; and removing it gives back the
list as it was, in its order. -/
theorem C15_package_insertion_reference (npc : TESNPC) (P : TESForm) (N : Int)
    (hP : P.formType = FormType.kPACK) (hN : 0 ≤ N) :
    packageApplier npc P N
      = { npc with listPackages := packageInsertionReference npc.listPackages P N } ∧
    packageApplier npc P 1 = packageApplier npc P 0 ∧
    (P ∉ npc.listPackages → (packageApplier npc P N).listPackages[1]? ≠ some P) ∧
    (P ∉ npc.listPackages →
      (packageApplier npc P N).listPackages.erase P = npc.listPackages) := by
  have href := packageApplier_eq_reference npc P N hP hN
  refine ⟨href, ?_, ?_, ?_⟩
  · rw [packageApplier_eq_reference npc P 1 hP (by decide),
      packageApplier_eq_reference npc P 0 hP (by decide)]
    unfold packageInsertionReference
    simp
  · intro hmem hat
    rw [href] at hat
    simp only at hat
    rcases packageInsertionReference_cases npc.listPackages P N with h | h | ⟨n, hn2, hlen, h⟩
    · rw [h] at hat
      exact hmem (List.getElem?_mem hat)
    · rw [h] at hat
      simp only [List.getElem?_cons_succ] at hat
      exact hmem (List.getElem?_mem hat)
    · rw [h] at hat
      rw [List.getElem?_append_left (by rw [List.length_take]; omega)] at hat
      exact hmem (List.mem_of_mem_take (List.getElem?_mem hat))
  · intro hmem
    rw [href]
    simp only
    rcases packageInsertionReference_cases npc.listPackages P N with h | h | ⟨n, _, _, h⟩
    · rw [h]
      exact List.erase_of_not_mem hmem
    · rw [h]
      exact List.erase_cons_head P npc.listPackages
    · rw [h]
      have htake : P ∉ npc.listPackages.take n := fun hin => hmem (List.mem_of_mem_take hin)
      rw [List.erase_append_right _ htake, List.erase_cons_head, List.take_append_drop]

/-- Claim C15 at package 9 with index 2 on the list of packages 1, 2, 3 (inserted at
0-based position 2). -/
theorem C15_package_insertion_reference_witness :
    packageApplier { emptyNPC with listPackages := [pack 1, pack 2, pack 3] } (pack 9) 2
      = { emptyNPC with listPackages := [pack 1, pack 2, pack 9, pack 3] } :=
  (C15_package_insertion_reference { emptyNPC with listPackages := [pack 1, pack 2, pack 3] }
    (pack 9) 2 rfl (by decide)).1.trans (by decide)

/-! ### Death key parsing and `TryParse` -/

/-- A key that is the text `Death` followed by some text passes the test of line 19. -/
theorem deathKey_isPrefixOf (rest : String) :
    deathKey.data.isPrefixOf (deathKey ++ rest).data = true := by
  rw [List.isPrefixOf_iff_prefix, String.data_append]
  exact List.prefix_append _ _

/-- The text after the first five characters of `Death` followed by some text is that text. -/
theorem deathKey_substr (rest : String) :
    String.mk ((deathKey ++ rest).data.drop 5) = rest := by
  rw [String.data_append, List.drop_left' (by decide)]

/-- A key that passes the test of line 19 is the text `Death` followed by some text. -/
theorem eq_deathKey_append_of_isPrefixOf (key : String)
    (h : deathKey.data.isPrefixOf key.data = true) : ∃ rest : String, key = deathKey ++ rest := by
  rw [List.isPrefixOf_iff_prefix] at h
  obtain ⟨t, ht⟩ := h
  refine ⟨String.mk t, ?_⟩
  apply String.ext
  rw [String.data_append, ht]

/-- The key parser on `Death` followed by some text. -/
theorem DeathKeyComponentParser_deathKey (GetType : String → RECORD.TYPE) (rest : String)
    (data : INI.Data) :
    INI.DeathKeyComponentParser GetType (deathKey ++ rest) data
      = if GetType rest = RECORD.TYPE.kTotal
        then Except.error (ParseException.UnsupportedFormType rest)
        else Except.ok (true, { data with type := GetType rest }) := by
  unfold INI.DeathKeyComponentParser
  rw [if_neg (by rw [deathKey_isPrefixOf]; decide)]
  simp only [deathKey_substr]

/-- The vector under a key is not changed by the subscript operator, with any key. -/
theorem Map.vecAt_subscript (m : Map) (key t : RECORD.TYPE) :
    (m.subscript key).vecAt t = m.vecAt t := by
  unfold Map.subscript
  split
  · rfl
  · rename_i hany
    unfold Map.vecAt
    rw [List.find?_append]
    cases hfind : m.find? (fun e => e.1 == t) with
    | some e => rfl
    | none =>
      by_cases hkt : key = t
      · subst hkt
        simp
      · simp [hkt]

/-- The key is in the map after the subscript operator. -/
theorem Map.any_subscript (m : Map) (key : RECORD.TYPE) :
    (m.subscript key).any (fun e => e.1 == key) = true := by
  unfold Map.subscript
  split
  · rename_i hany; exact hany
  · simp

/-- Placing an entry at the back of the vectors under a key: the vector found under that
key grows by the entry when the key is in the map. -/
theorem Map.vecAt_map_same (key : RECORD.TYPE) (data : INI.Data) (l : Map)
    (hany : l.any (fun e => e.1 == key) = true) :
    Map.vecAt (l.map (fun e => if e.1 = key then (e.1, e.2 ++ [data]) else e)) key
      = Map.vecAt l key ++ [data] := by
  induction l with
  | nil => simp at hany
  | cons e rest ih =>
    by_cases hk : e.1 = key
    · simp [Map.vecAt, hk]
    · have hrest : rest.any (fun e => e.1 == key) = true := by
        simpa [hk] using hany
      have ih2 := ih hrest
      unfold Map.vecAt at ih2 ⊢
      simp only [List.map_cons, hk, if_false, List.find?_cons]
      have hbeq : (e.1 == key) = false := by simpa using hk
      rw [hbeq]
      exact ih2

/-- Placing an entry at the back of the vectors under a key leaves the vectors under the
other keys as they were. -/
theorem Map.vecAt_map_other (key t : RECORD.TYPE) (data : INI.Data) (l : Map) (ht : t ≠ key) :
    Map.vecAt (l.map (fun e => if e.1 = key then (e.1, e.2 ++ [data]) else e)) t
      = Map.vecAt l t := by
  induction l with
  | nil => rfl
  | cons e rest ih =>
    unfold Map.vecAt at ih ⊢
    by_cases hk : e.1 = key
    · have hbeq : (e.1 == t) = false := by
        simp only [beq_eq_false_iff_ne, ne_eq]
        intro h; exact ht (h.symm.trans hk)
      simp only [List.map_cons, hk, if_true, List.find?_cons]
      rw [← hk, hbeq]
      simp only [hk]
      exact ih
    · simp only [List.map_cons, hk, if_false, List.find?_cons]
      cases hbeq : (e.1 == t) with
      | true => rfl
      | false => exact ih

/-- Placing an entry at the back of the vectors under a key stores one entry more for each
occurrence of the key. -/
theorem Map.storedEntries_map (key : RECORD.TYPE) (data : INI.Data) (l : Map) :
    Map.storedEntries (l.map (fun e => if e.1 = key then (e.1, e.2 ++ [data]) else e))
      = Map.storedEntries l + (l.map (fun e => e.1)).count key := by
  induction l with
  | nil => rfl
  | cons e rest ih =>
    unfold Map.storedEntries at ih ⊢
    by_cases hk : e.1 = key
    · simp only [List.map_cons, hk, if_true, List.sum_cons, List.length_append,
        List.length_singleton, List.count_cons_self]
      rw [ih]
      omega
    · simp only [List.map_cons, hk, if_false, List.sum_cons]
      rw [ih, List.count_cons_of_ne (fun h => hk h.symm)]
      omega

/-- The subscript operator keeps the keys of the map distinct, and the key is among them
afterwards. -/
theorem Map.keys_subscript (m : Map) (key : RECORD.TYPE)
    (hkeys : (m.map (fun e => e.1)).Nodup) :
    ((m.subscript key).map (fun e => e.1)).Nodup ∧ key ∈ (m.subscript key).map (fun e => e.1) := by
  unfold Map.subscript
  split
  · rename_i hany
    refine ⟨hkeys, ?_⟩
    rw [List.any_eq_true] at hany
    obtain ⟨e, he, hek⟩ := hany
    exact List.mem_map.2 ⟨e, he, by simpa using hek⟩
  · rename_i hany
    have hnot : key ∉ m.map (fun e => e.1) := by
      intro hin
      obtain ⟨e, he, hek⟩ := List.mem_map.1 hin
      exact hany (List.any_eq_true.2 ⟨e, he, by simpa using hek⟩)
    constructor
    · rw [List.map_append, List.nodup_append]
      refine ⟨hkeys, by simp, ?_⟩
      intro a ha hb
      simp only [List.map_cons, List.map_nil, List.mem_singleton] at hb
      exact hnot (hb ▸ ha)
    · simp

/-- With distinct keys, `m[key].emplace_back(data)` puts the entry at the back of the vector
under the key, leaves the vectors under the other keys as they were, and stores exactly one
entry more. -/
theorem Map.emplace_back_spec (m : Map) (key : RECORD.TYPE) (data : INI.Data)
    (hkeys : (m.map (fun e => e.1)).Nodup) :
    (m.emplace_back key data).vecAt key = m.vecAt key ++ [data] ∧
    (∀ t : RECORD.TYPE, t ≠ key → (m.emplace_back key data).vecAt t = m.vecAt t) ∧
    (m.emplace_back key data).storedEntries = m.storedEntries + 1 := by
  unfold Map.emplace_back
  refine ⟨?_, ?_, ?_⟩
  · rw [Map.vecAt_map_same key data _ (Map.any_subscript m key), Map.vecAt_subscript]
  · intro t ht
    rw [Map.vecAt_map_other key t data _ ht, Map.vecAt_subscript]
  · obtain ⟨hnodup, hin⟩ := Map.keys_subscript m key hkeys
    rw [Map.storedEntries_map, Map.storedEntries_subscript, List.count_eq_one_of_mem hnodup hin]

/-- Claim C16: the key parser returns false and the data unchanged for a key that is not
`Death` followed by some text; for `Death` followed by s it returns true with the type set
to the one s names when that is not `kTotal`, and throws the unsupported form type
exception for s otherwise. `TryParse` returns false exactly when the parse yields no data
(and the map is unchanged); when a component throws it returns true with the map unchanged;
when the parse yields an entry it returns true, the entry (with the path) is at the back of
the vector of its type, the other vectors are unchanged, and one entry more is stored. -/
theorem C16_death_key_and_TryParse (GetType : String → RECORD.TYPE)
    (Parse : String → String → ParseOutcome) (m : Map) (key value : String) (path : Nat)
    (data : INI.Data) (hkeys : (m.map (fun e => e.1)).Nodup) :
    ((∀ rest : String, key ≠ deathKey ++ rest) →
      INI.DeathKeyComponentParser GetType key data = Except.ok (false, data)) ∧
    (∀ rest : String, GetType rest ≠ RECORD.TYPE.kTotal →
      INI.DeathKeyComponentParser GetType (deathKey ++ rest) data
        = Except.ok (true, { data with type := GetType rest })) ∧
    (∀ rest : String, GetType rest = RECORD.TYPE.kTotal →
      INI.DeathKeyComponentParser GetType (deathKey ++ rest) data
        = Except.error (ParseException.UnsupportedFormType rest)) ∧
    ((INI.TryParse Parse m key value path).1 = false ↔ Parse key value = ParseOutcome.noData) ∧
    (Parse key value = ParseOutcome.noData → (INI.TryParse Parse m key value path).2 = m) ∧
    (Parse key value = ParseOutcome.threw → INI.TryParse Parse m key value path = (true, m)) ∧
    (∀ d : INI.Data, Parse key value = ParseOutcome.data d →
      (INI.TryParse Parse m key value path).1 = true ∧
      (INI.TryParse Parse m key value path).2.vecAt d.type
        = m.vecAt d.type ++ [{ d with path := path }] ∧
      (∀ t : RECORD.TYPE, t ≠ d.type →
        (INI.TryParse Parse m key value path).2.vecAt t = m.vecAt t) ∧
      (INI.TryParse Parse m key value path).2.storedEntries = m.storedEntries + 1) := by
  refine ⟨?_, ?_, ?_, ?_, ?_, ?_, ?_⟩
  · intro hno
    unfold INI.DeathKeyComponentParser
    cases htest : deathKey.data.isPrefixOf key.data with
    | false => simp
    | true =>
      obtain ⟨rest, hrest⟩ := eq_deathKey_append_of_isPrefixOf key htest
      exact absurd hrest (hno rest)
  · intro rest hrest
    rw [DeathKeyComponentParser_deathKey, if_neg hrest]
  · intro rest hrest
    rw [DeathKeyComponentParser_deathKey, if_pos hrest]
  · unfold INI.TryParse
    cases hparse : Parse key value <;> simp
  · intro hparse
    unfold INI.TryParse
    rw [hparse]
  · intro hparse
    unfold INI.TryParse
    rw [hparse]
  · intro d hparse
    unfold INI.TryParse
    rw [hparse]
    obtain ⟨h1, h2, h3⟩ := Map.emplace_back_spec m d.type { d with path := path } hkeys
    exact ⟨rfl, h1, h2, h3⟩

/-- Claim C16 on the empty map with a sample table of type names: `Death` alone throws for
the empty text, `DeathPackage` sets the package type, and a parse that yields the sample
entry stores it as the one entry under its type. -/
theorem C16_death_key_and_TryParse_witness :
    INI.DeathKeyComponentParser sampleGetType (deathKey ++ "") sampleData
      = Except.error (ParseException.UnsupportedFormType "") ∧
    INI.DeathKeyComponentParser sampleGetType (deathKey ++ "Package") sampleData
      = Except.ok (true, { sampleData with type := RECORD.TYPE.kPackage }) ∧
    (INI.TryParse (fun _ _ => ParseOutcome.data sampleData) []
        (deathKey ++ "Spell") "" 3).2.vecAt RECORD.TYPE.kSpell
      = [{ sampleData with path := 3 }] :=
  ⟨(C16_death_key_and_TryParse sampleGetType (fun _ _ => ParseOutcome.data sampleData) []
      (deathKey ++ "Spell") "" 3 sampleData List.nodup_nil).2.2.1 "" (by decide),
    (C16_death_key_and_TryParse sampleGetType (fun _ _ => ParseOutcome.data sampleData) []
      (deathKey ++ "Spell") "" 3 sampleData List.nodup_nil).2.1 "Package" (by decide),
    ((C16_death_key_and_TryParse sampleGetType (fun _ _ => ParseOutcome.data sampleData) []
      (deathKey ++ "Spell") "" 3 sampleData List.nodup_nil).2.2.2.2.2.2 sampleData rfl).2.1⟩

/-- Every state of `deathConfigs` that `TryParse` and `LookupForms` reach has distinct keys. -/
theorem ReachableConfigs_keys (m : Map) (hreach : ReachableConfigs m) :
    (m.map (fun e => e.1)).Nodup := by
  induction hreach with
  | init => exact List.nodup_nil
  | tryParse Parse key value path m _ ih =>
    unfold INI.TryParse
    cases hparse : Parse key value with
    | threw => exact ih
    | noData => exact ih
    | data d =>
      simp only [Map.emplace_back]
      have hmap : ∀ l : Map,
          (l.map (fun e => if e.1 = d.type then (e.1, e.2 ++ [{ d with path := path }]) else e)).map
            (fun e => e.1) = l.map (fun e => e.1) := by
        intro l
        rw [List.map_map]
        apply List.map_congr_left
        intro e _
        by_cases hk : e.1 = d.type <;> simp [hk]
      rw [hmap]
      exact (Map.keys_subscript m d.type ih).1
  | lookupForms types m _ ih =>
    unfold Manager.LookupForms_deathConfigs
    have hfold : ∀ (ts : List RECORD.TYPE) (l : Map), (l.map (fun e => e.1)).Nodup →
        ((ts.foldl (fun m t => m.subscript t) l).map (fun e => e.1)).Nodup := by
      intro ts
      induction ts with
      | nil => intro l hl; exact hl
      | cons t rest ihts =>
        intro l hl
        rw [List.foldl_cons]
        exact ihts _ (Map.keys_subscript l t hl).1
    exact (Map.keys_subscript _ _ (Map.keys_subscript _ _ (hfold types m ih)).1).1

end SPID
